import Mathlib

/-!
Verification development for the neru training engine.

The JavaScript sources are embedded shallowly:

* JS numbers are modelled in two ways.  Code whose claims are purely
  algebraic (the basic feed-forward network of src/unnamed/part_001 and the
  unit of src/unnamed/part_003) is modelled over `ℚ`, with the transcendental
  kernel of the logistic function (and `Math.log`/`Math.exp` used by the
  temperature path) kept as abstract parameters in `SigOps`; every theorem
  about this model is universally quantified over those parameters.
  Code whose claims are about NaN/Infinity behaviour (the error accumulation
  of `NeuralNetwork.train`, `LSTMLayer.backward`, `AdvancedNetwork.train`)
  is modelled over `JsNum`, rationals extended with `nan` and signed
  infinities, with IEEE-style absorption rules.  Rounding of IEEE doubles is
  not modelled; no claim in scope depends on it.
* A JS out-of-range array read yields `undefined`, and every arithmetic use
  of `undefined` yields `NaN`.  In the `JsNum` model such reads are therefore
  modelled directly as `nan` (`getN`).  In the `ℚ` model out-of-range reads
  default to `0`; the theorems over the `ℚ` model only quantify over states
  inside the size invariants (spelled out in their hypotheses) where no such
  read occurs.
* `Math.random()` is modelled as an explicit stream of rationals `Rng`
  threaded through the functions that draw from it.
* JS `Map` objects keyed by strings are modelled as insertion-ordered
  association lists (`alGet`/`alSet`).
-/

namespace Neru

/-- A JavaScript number: a finite value (modelled as a rational), NaN, or a
signed infinity. -/
inductive JsNum where
  | num : ℚ → JsNum
  | nan : JsNum
  | inf : JsNum
  | ninf : JsNum
deriving DecidableEq, Repr

namespace JsNum

/-- Negation of a JS number. -/
def neg : JsNum → JsNum
  | num q => num (-q)
  | nan => nan
  | inf => ninf
  | ninf => inf

/-- Addition with IEEE-style special values: NaN absorbs, opposite
infinities give NaN. -/
def add : JsNum → JsNum → JsNum
  | nan, _ => nan
  | _, nan => nan
  | inf, ninf => nan
  | ninf, inf => nan
  | inf, _ => inf
  | _, inf => inf
  | ninf, _ => ninf
  | _, ninf => ninf
  | num a, num b => num (a + b)

/-- Subtraction, `a - b = a + (-b)` (matches IEEE special-value behaviour). -/
def sub (a b : JsNum) : JsNum := add a (neg b)

/-- Multiplication: NaN absorbs, `0 · ∞ = NaN`, signs multiply. -/
def mul : JsNum → JsNum → JsNum
  | nan, _ => nan
  | _, nan => nan
  | inf, inf => inf
  | inf, ninf => ninf
  | ninf, inf => ninf
  | ninf, ninf => inf
  | inf, num b => if b = 0 then nan else if 0 < b then inf else ninf
  | num a, inf => if a = 0 then nan else if 0 < a then inf else ninf
  | ninf, num b => if b = 0 then nan else if 0 < b then ninf else inf
  | num a, ninf => if a = 0 then nan else if 0 < a then ninf else inf
  | num a, num b => num (a * b)

/-- Division: NaN absorbs, `∞/∞ = NaN`, `x/0` gives a signed infinity
(`0/0 = NaN`), `x/∞ = 0`.  The sign of zero is not modelled. -/
def div : JsNum → JsNum → JsNum
  | nan, _ => nan
  | _, nan => nan
  | inf, inf => nan
  | inf, ninf => nan
  | ninf, inf => nan
  | ninf, ninf => nan
  | inf, num b => if 0 ≤ b then inf else ninf
  | ninf, num b => if 0 ≤ b then ninf else inf
  | num _, inf => num 0
  | num _, ninf => num 0
  | num a, num b =>
      if b = 0 then (if a = 0 then nan else if 0 < a then inf else ninf)
      else num (a / b)

/-- The `isNaN` test. -/
def isNaNb : JsNum → Bool
  | nan => true
  | _ => false

/-- The `isFinite` test. -/
def isFiniteb : JsNum → Bool
  | num _ => true
  | _ => false

/-- The `<` comparison; any comparison with NaN is false. -/
def lt : JsNum → JsNum → Bool
  | nan, _ => false
  | _, nan => false
  | num a, num b => decide (a < b)
  | num _, inf => true
  | num _, ninf => false
  | inf, _ => false
  | ninf, ninf => false
  | ninf, _ => true

/-- The `≤` comparison; any comparison with NaN is false. -/
def le : JsNum → JsNum → Bool
  | nan, _ => false
  | _, nan => false
  | num a, num b => decide (a ≤ b)
  | num _, inf => true
  | num _, ninf => false
  | inf, inf => true
  | inf, _ => false
  | ninf, _ => true

/-- The `>` comparison. -/
def gt (a b : JsNum) : Bool := lt b a

/-- The `≥` comparison. -/
def ge (a b : JsNum) : Bool := le b a

/-- JS `Math.max` of two values: NaN if either argument is NaN. -/
def jmax (a b : JsNum) : JsNum :=
  if a.isNaNb || b.isNaNb then nan else if lt a b then b else a

/-- JS `Math.min` of two values: NaN if either argument is NaN. -/
def jmin (a b : JsNum) : JsNum :=
  if a.isNaNb || b.isNaNb then nan else if lt b a then b else a

@[simp] theorem mul_nan (a : JsNum) : mul a nan = nan := by cases a <;> rfl

@[simp] theorem nan_mul (a : JsNum) : mul nan a = nan := by cases a <;> rfl

@[simp] theorem sub_nan (a : JsNum) : sub a nan = nan := by cases a <;> rfl

@[simp] theorem nan_sub (a : JsNum) : sub nan a = nan := by cases a <;> rfl

@[simp] theorem add_nan (a : JsNum) : add a nan = nan := by cases a <;> rfl

@[simp] theorem nan_add (a : JsNum) : add nan a = nan := by cases a <;> rfl

end JsNum

/-- Read `l[i]` as JS does: an out-of-range read yields `undefined`, which
behaves as NaN in every arithmetic context in which the sources use it. -/
def getN (l : List JsNum) (i : ℕ) : JsNum := l.getD i JsNum.nan

/-- Read `A[h][i]` for a matrix stored as a list of rows. -/
def mget (A : List (List JsNum)) (h i : ℕ) : JsNum := getN (A.getD h []) i

/-- Helper for `jsMapIdx`: map with an explicit starting index. -/
def jsMapIdxGo {α β : Type} (f : ℕ → α → β) : ℕ → List α → List β
  | _, [] => []
  | i, a :: l => f i a :: jsMapIdxGo f (i + 1) l

/-- JS `Array.prototype.map((val, idx) => ...)`. -/
def jsMapIdx {α β : Type} (f : ℕ → α → β) (l : List α) : List β :=
  jsMapIdxGo f 0 l

@[simp] theorem jsMapIdxGo_nil {α β : Type} (f : ℕ → α → β) (i : ℕ) :
    jsMapIdxGo f i [] = [] := rfl

@[simp] theorem jsMapIdxGo_cons {α β : Type} (f : ℕ → α → β) (i : ℕ) (a : α) (l : List α) :
    jsMapIdxGo f i (a :: l) = f i a :: jsMapIdxGo f (i + 1) l := rfl

@[simp] theorem jsMapIdxGo_length {α β : Type} (f : ℕ → α → β) (i : ℕ) (l : List α) :
    (jsMapIdxGo f i l).length = l.length := by
  induction l generalizing i with
  | nil => rfl
  | cons a l ih => simp [jsMapIdxGo, ih]

@[simp] theorem jsMapIdx_length {α β : Type} (f : ℕ → α → β) (l : List α) :
    (jsMapIdx f l).length = l.length := jsMapIdxGo_length f 0 l

/-- Read `l[i]` in the `ℚ` model.  A JS out-of-range read would yield
`undefined` (NaN under arithmetic); the default `0` is only ever relied upon
inside the size invariants assumed by the theorems over this model. -/
def getQ (l : List ℚ) (i : ℕ) : ℚ := l.getD i 0

/-- A stream of pre-drawn `Math.random()` values together with a cursor. -/
structure Rng where
  stream : ℕ → ℚ
  pos : ℕ

/-- Draw one random value. -/
def drawQ (rng : Rng) : ℚ × Rng := (rng.stream rng.pos, ⟨rng.stream, rng.pos + 1⟩)

/-- Draw `k` random values in order. -/
def drawList : ℕ → Rng → List ℚ × Rng
  | 0, rng => ([], rng)
  | k + 1, rng =>
      let (q, rng1) := drawQ rng
      let (qs, rng2) := drawList k rng1
      (q :: qs, rng2)

/-- The transcendental kernels left abstract in the `ℚ` model of the basic
network: `sig x` stands for `1/(1+exp(-x))` on `[-16,16]`, `logQ`/`expQ` for
`Math.log`/`Math.exp` in the temperature path of `feedForward`. -/
structure SigOps where
  sig : ℚ → ℚ
  logQ : ℚ → ℚ
  expQ : ℚ → ℚ

/-- Source: `Neron.activation` (src/unnamed/part_003).  Clamps the input
outside `[-16, 16]` to `{0, 1}` and otherwise applies the logistic kernel. -/
def activation (ops : SigOps) (x : ℚ) : ℚ :=
  if x < -16 then 0 else if x > 16 then 1 else ops.sig x

/-- Source: the `Neron` class of src/unnamed/part_003.  `lastInputs` and
`lastOutput` are `null` until the first `output` call; the `ℚ` model
initialises them to `[]` and `0`, which the sources never read before the
first `output` call overwrites them. -/
structure Neron where
  weights : List ℚ
  bias : ℚ
  lastInputs : List ℚ
  lastOutput : ℚ
  baseLearningRate : ℚ
  learningRate : ℚ
  momentum : ℚ
  prevWeightDeltas : List ℚ
  prevBiasDelta : ℚ
  attempts : ℕ
deriving DecidableEq, Repr

/-- The `Neron` constructor. -/
def mkNeron (weights : List ℚ) (bias : ℚ) : Neron :=
  { weights := weights
    bias := bias
    lastInputs := []
    lastOutput := 0
    baseLearningRate := 1/10
    learningRate := 1/10
    momentum := 9/10
    prevWeightDeltas := List.replicate weights.length 0
    prevBiasDelta := 0
    attempts := 0 }

/-- Source: `Neron.output`.  Computes `bias + Σ weights[i]·inputs[i]` over
the shorter of the two lengths, applies the activation, and caches the
inputs and the output for the next `train` call.  Note there is no failure
path: an empty `inputs` simply contributes zero product terms. -/
def Neron.output (n : Neron) (ops : SigOps) (inputs : List ℚ) : ℚ × Neron :=
  let sum := (List.zipWith (fun a w => a * w) inputs n.weights).foldl (· + ·) n.bias
  let out := activation ops sum
  (out, { n with lastInputs := inputs, lastOutput := out })

/-- Source: `Neron.train`.  Momentum-augmented update of every weight and
the bias; returns the pre-weight gradient `outputDerivative`. -/
def Neron.train (n : Neron) (error reinforcement : ℚ) : ℚ × Neron :=
  let scaledError := error * reinforcement
  let od := scaledError * n.lastOutput * (1 - n.lastOutput)
  let wds := (List.range n.weights.length).map
    (fun i => n.learningRate * od * getQ n.lastInputs i)
  let weights2 := (List.range n.weights.length).map
    (fun i => getQ n.weights i + getQ wds i + n.momentum * getQ n.prevWeightDeltas i)
  let biasDelta := n.learningRate * od
  (od,
   { n with
      weights := weights2
      prevWeightDeltas := wds
      bias := n.bias + biasDelta + n.momentum * n.prevBiasDelta
      prevBiasDelta := biasDelta })

/-- Source: `Neron.boostLearningRate`, capped at 0.5 absolute. -/
def Neron.boostLearningRate (n : Neron) (factor : ℚ) : Neron :=
  { n with learningRate := min (1/2) (n.baseLearningRate * factor) }

/-- Source: `Neron.resetLearningRate`. -/
def Neron.resetLearningRate (n : Neron) : Neron :=
  { n with learningRate := n.baseLearningRate, attempts := 0 }

/-- Lookup in an insertion-ordered association list (JS `Map.get`). -/
def alGet {α : Type} (l : List (String × α)) (k : String) : Option α :=
  (l.find? (fun p => p.1 == k)).map Prod.snd

/-- Update in an insertion-ordered association list (JS `Map.set`): replace
in place when the key is present, append otherwise. -/
def alSet {α : Type} (l : List (String × α)) (k : String) (v : α) : List (String × α) :=
  if (l.find? (fun p => p.1 == k)).isSome then
    l.map (fun p => if p.1 == k then (k, v) else p)
  else l ++ [(k, v)]

/-- Source: the `NeuralNetwork` class state of src/unnamed/part_001.
`associationStrengths` and `trainingAttempts` are the two string-keyed maps
of the reinforcement tracker. -/
structure Net where
  inputSize : ℕ
  outputSize : ℕ
  layers : List (List Neron)
  outputLayer : List Neron
  assocStrengths : List (String × ℚ)
  trainingAttempts : List (String × ℕ)
deriving DecidableEq, Repr

/-- Source: `NeuralNetwork.trackAssociation`.  Lazily initialises an entry
at strength 0.5, increments the attempt counter, then moves the strength
toward 1 on success (`s += (1-s)·0.2`) or decays it with a floor of 0.1 on
failure (`s = max(0.1, s·0.8)`). -/
def trackAssociation (net : Net) (inputWord outputWord : String) (success : Bool) :
    (ℕ × ℚ) × Net :=
  let key := inputWord ++ ":" ++ outputWord
  let p :=
    if (alGet net.assocStrengths key).isNone then
      (alSet net.assocStrengths key (1/2), alSet net.trainingAttempts key 0)
    else (net.assocStrengths, net.trainingAttempts)
  let attempts := (alGet p.2 key).getD 0 + 1
  let t2 := alSet p.2 key attempts
  let currentStrength := (alGet p.1 key).getD 0
  let ns :=
    if success then currentStrength + (1 - currentStrength) * (1/5)
    else max (1/10) (currentStrength * (4/5))
  ((attempts, ns),
   { net with assocStrengths := alSet p.1 key ns, trainingAttempts := t2 })

/-- Source: `NeuralNetwork.calculateReinforcement`: 1.0 if untracked, 5.0
for `attempts > 5 ∧ strength < 0.5`, 2.0 for `attempts > 3`, else 1.0. -/
def calculateReinforcement (net : Net) (inputWord outputWord : String) : ℚ :=
  let key := inputWord ++ ":" ++ outputWord
  if (alGet net.assocStrengths key).isNone then 1
  else
    let attempts := (alGet net.trainingAttempts key).getD 0
    let strength := (alGet net.assocStrengths key).getD 0
    if attempts > 5 ∧ strength < 1/2 then 5
    else if attempts > 3 then 2
    else 1

/-- Grow each first-layer neuron by `k` appended weights drawn from the
random stream, each mapped through `Math.random() * 0.2 - 0.1`. -/
def growNerons (k : ℕ) : List Neron → Rng → List Neron × Rng
  | [], rng => ([], rng)
  | n :: rest, rng =>
      let (qs, rng1) := drawList k rng
      let n2 := { n with weights := n.weights ++ qs.map (fun q => q * (1/5) - 1/10) }
      let (rest2, rng2) := growNerons k rest rng1
      (n2 :: rest2, rng2)

/-- Append `k` freshly constructed output neurons, each with `w` weights
drawn via `Math.random() * 2 - 1` followed by one bias draw. -/
def growOutput (w : ℕ) : ℕ → Rng → List Neron × Rng
  | 0, rng => ([], rng)
  | k + 1, rng =>
      let (qs, rng1) := drawList w rng
      let (b, rng2) := drawQ rng1
      let n := mkNeron (qs.map (fun q => q * 2 - 1)) (b * 2 - 1)
      let (rest, rng3) := growOutput w k rng2
      (n :: rest, rng3)

/-- Source: `NeuralNetwork.resize`.  Grows (never shrinks) the first hidden
layer's per-unit weight vectors and appends new output-layer units; the
recorded `inputSize` is then set unconditionally.  (On an empty `layers`
array the JS code would throw while growing; the theorems about `resize`
assume `layers ≠ []`.) -/
def resize (net : Net) (newInputSize newOutputSize : ℕ) (rng : Rng) : Net × Rng :=
  let p :=
    if newInputSize > net.inputSize then
      match net.layers with
      | [] => (net.layers, rng)
      | l0 :: rest =>
          let (l0g, rng1) := growNerons (newInputSize - net.inputSize) l0 rng
          (l0g :: rest, rng1)
    else (net.layers, rng)
  let q :=
    if newOutputSize > net.outputSize then
      let lastLen := (p.1.getLastD []).length
      let (fresh, rng2) := growOutput lastLen (newOutputSize - net.outputSize) p.2
      (net.outputLayer ++ fresh, newOutputSize, rng2)
    else (net.outputLayer, net.outputSize, p.2)
  ({ net with
      layers := p.1
      outputLayer := q.1
      outputSize := q.2.1
      inputSize := newInputSize }, q.2.2)

/-- Helper for `findHighestIndex`: scan with the current maximum value, its
index, and the cursor. -/
def fhiGo : List ℚ → ℚ → ℕ → ℕ → ℕ
  | [], _, maxIdx, _ => maxIdx
  | y :: ys, maxVal, maxIdx, cur =>
      if y > maxVal then fhiGo ys y cur (cur + 1) else fhiGo ys maxVal maxIdx (cur + 1)

/-- Source: `NeuralNetwork.findHighestIndex`: `-1` on an empty array,
otherwise the index of the first strict maximum. -/
def findHighestIndex (l : List ℚ) : ℤ :=
  match l with
  | [] => -1
  | x :: xs => (fhiGo xs x 0 1 : ℕ)

/-- Source: the pad/truncate preamble of `NeuralNetwork.feedForward`:
zero-pad short inputs, truncate long ones, silently. -/
def padTruncate (sz : ℕ) (inputs : List ℚ) : List ℚ :=
  if inputs.length < sz then inputs ++ List.replicate (sz - inputs.length) 0
  else if inputs.length > sz then inputs.take sz
  else inputs

/-- Propagate through the hidden layers: each layer maps its neurons over
the previous layer's outputs, caching per-neuron state. -/
def runLayers (ops : SigOps) : List (List Neron) → List ℚ → List ℚ × List (List Neron)
  | [], input => (input, [])
  | layer :: rest, input =>
      let pairs := layer.map (fun n => n.output ops input)
      let r := runLayers ops rest (pairs.map Prod.fst)
      (r.1, pairs.map Prod.snd :: r.2)

/-- Source: `NeuralNetwork.feedForward`.  Pads/truncates the input, runs the
hidden layers and the output layer, then optionally reshapes each raw output
independently through the temperature logit rescaling. -/
def feedForward (ops : SigOps) (net : Net) (inputs : List ℚ) (temperature : ℚ) :
    List ℚ × Net :=
  let inputs2 := padTruncate net.inputSize inputs
  let r := runLayers ops net.layers inputs2
  let pairs := net.outputLayer.map (fun n => n.output ops r.1)
  let rawOutputs := pairs.map Prod.fst
  let outs :=
    if temperature ≠ 1 then
      let logits := rawOutputs.map (fun p =>
        let clipped := max (1/10000) (min (9999/10000) p)
        ops.logQ (clipped / (1 - clipped)) / temperature)
      logits.map (fun l => let expL := ops.expQ l; expL / (1 + expL))
    else rawOutputs
  (outs, { net with layers := r.2, outputLayer := pairs.map Prod.snd })

/-- Error feeding into hidden unit `i`: sum of `delta_j · weight_j[i]` over
the next layer, guarded by `i < nextLayerWeights[j].length` as in the
source. -/
def errSum (nextDeltas : List ℚ) (nextWeights : List (List ℚ)) (i : ℕ) : ℚ :=
  (List.range nextDeltas.length).foldl
    (fun acc j =>
      if i < (nextWeights.getD j []).length then
        acc + getQ nextDeltas j * getQ (nextWeights.getD j []) i
      else acc) 0

/-- Backpropagation through the hidden layers, processed in reverse order
(the argument list is already reversed).  Each layer is trained against the
deltas and the already-updated weights of the layer above it, exactly as the
in-place JS mutation does. -/
def backHidden (reinforcement : ℚ) :
    List (List Neron) → List ℚ → List (List ℚ) → List (List Neron)
  | [], _, _ => []
  | layer :: restRev, nextDeltas, nextWeights =>
      let pairs := (List.range layer.length).map
        (fun i => (layer.getD i (mkNeron [] 0)).train (errSum nextDeltas nextWeights i)
          reinforcement)
      let layer2 := pairs.map Prod.snd
      layer2 :: backHidden reinforcement restRev (pairs.map Prod.fst)
        (layer2.map (fun n => n.weights))

/-- Source: `NeuralNetwork.train`.  Resizes on a dimension mismatch
(grow-only), runs a forward pass (note: without the pad/truncate preamble of
`feedForward`), computes the mean squared error, derives the reinforcement
as the maximum of the caller's factor and the association-based one when
both labels are nonempty, trains the output layer, and backpropagates
through the hidden layers.  The NaN/∞ skip guarding the error accumulation
is vacuous over `ℚ`; `trainTotalError` below models that loop exactly over
`JsNum`.  The surrounding JS `try/catch` (which returns 0) has no reachable
throw site within the modelled domain. -/
def train (ops : SigOps) (net : Net) (inputs expectedOutputs : List ℚ)
    (inputWord outputWord : String) (reinforcementFactor : ℚ) (rng : Rng) :
    ℚ × Net × Rng :=
  let p :=
    if inputs.length ≠ net.inputSize ∨ expectedOutputs.length ≠ net.outputSize then
      resize net (max inputs.length net.inputSize)
        (max expectedOutputs.length net.outputSize) rng
    else (net, rng)
  let net1 := p.1
  let r := runLayers ops net1.layers inputs
  let outPairs := net1.outputLayer.map (fun n => n.output ops r.1)
  let finalOutputs := outPairs.map Prod.fst
  let outputLayer2 := outPairs.map Prod.snd
  let totalError :=
    (((List.range expectedOutputs.length).map
        (fun i => (getQ expectedOutputs i - getQ finalOutputs i) ^ 2)).foldl (· + ·) 0) /
      (expectedOutputs.length : ℚ)
  let rf :=
    if inputWord ≠ "" ∧ outputWord ≠ "" then
      max reinforcementFactor (calculateReinforcement net1 inputWord outputWord)
    else reinforcementFactor
  let trained := (List.range finalOutputs.length).map
    (fun i => (outputLayer2.getD i (mkNeron [] 0)).train
      (getQ expectedOutputs i - getQ finalOutputs i) rf)
  let outputLayer3 := trained.map Prod.snd
  let layersFinal :=
    (backHidden rf net1.layers.reverse (trained.map Prod.fst)
      (outputLayer3.map (fun n => n.weights))).reverse
  (totalError, { net1 with layers := layersFinal, outputLayer := outputLayer3 }, p.2)

/-- Update entry `i` of a weight list to `f` of its current value (JS
`weights[i] op= ...`; an out-of-range write, which would sparsely extend the
JS array, does not occur within the size invariants of the theorems). -/
def updAt (l : List ℚ) (i : ℕ) (f : ℚ → ℚ) : List ℚ := l.set i (f (getQ l i))

/-- Source: `NeuralNetwork.forceAssociation`.  Directly strengthens the
first-layer weights on the winning input index and the last-hidden→winning
output connections, weakening the competing output connections; a no-op
unless both argmax indices are valid. -/
def forceAssociation (net : Net) (inputs expectedOutputs : List ℚ) (factor : ℚ) : Net :=
  let inputIndex := findHighestIndex inputs
  let outputIndex := findHighestIndex expectedOutputs
  if 0 ≤ inputIndex ∧ 0 ≤ outputIndex then
    let ii := inputIndex.toNat
    let oi := outputIndex.toNat
    let layers2 :=
      match net.layers with
      | [] => net.layers
      | l0 :: rest =>
          l0.map (fun n => { n with weights := updAt n.weights ii (· + (1/2) * factor) }) :: rest
    let lastLen := (layers2.getLastD []).length
    let outputLayer2 := jsMapIdx (fun j n =>
      { n with
          weights := (List.range lastLen).foldl
            (fun w i =>
              if j = oi then updAt w i (· + (3/10) * factor)
              else updAt w i (· - (1/10) * factor)) n.weights }) net.outputLayer
    { net with layers := layers2, outputLayer := outputLayer2 }
  else net

/-- Source: `NeuralNetwork.adjustNeuronLearningRates`. -/
def adjustNeuronLearningRates (net : Net) (factor : ℚ) : Net :=
  { net with
      layers := net.layers.map (fun l => l.map (fun n => n.boostLearningRate factor))
      outputLayer := net.outputLayer.map (fun n => n.boostLearningRate factor) }

/-- Source: `NeuralNetwork.resetNeuronLearningRates`. -/
def resetNeuronLearningRates (net : Net) : Net :=
  { net with
      layers := net.layers.map (fun l => l.map (fun n => n.resetLearningRate))
      outputLayer := net.outputLayer.map (fun n => n.resetLearningRate) }

/-- Source: `NeuralNetwork.isConflictingAssociation`: true iff some tracked
key for the same input label (string prefix match, colon-split into exactly
two parts) records a different target. -/
def isConflictingAssociation (net : Net) (inputWord targetWord : String) : Bool :=
  net.assocStrengths.any (fun p =>
    p.1.startsWith (inputWord ++ ":") &&
      (let parts := p.1.splitOn ":"
       parts.length == 2 && parts.getD 1 "" != targetWord))

/-- One middle layer step of `createDirectConnection`: strengthen all
incoming weights of the path neuron `layerIndex % layerUnitCount`.  Returns
the processed layers and the final `prevLayerSize`.  (A JS middle layer of
zero units would make the path index NaN and throw; such layers are left
unchanged here and excluded by the theorems.) -/
def cdcMiddle (factor : ℚ) : List (List Neron) → ℕ → ℕ → List (List Neron) × ℕ
  | [], _, prevSize => ([], prevSize)
  | layer :: rest, idx, prevSize =>
      let layer2 :=
        if layer.length = 0 then layer
        else jsMapIdx (fun k n =>
          if k = idx % layer.length then
            { n with
                weights := (List.range prevSize).foldl
                  (fun w j => updAt w j (· + factor * (3/10))) n.weights }
          else n) layer
      let r := cdcMiddle factor rest (idx + 1) layer.length
      (layer2 :: r.1, r.2)

/-- Source: `NeuralNetwork.createDirectConnection`.  The stronger
multi-layer fallback: strengthens the first layer on the winning input
index, one path neuron per middle layer, and the connections into the
winning output, weakening competing outputs. -/
def createDirectConnection (net : Net) (inputs expectedOutputs : List ℚ) (factor : ℚ) :
    Net :=
  let inputIndex := findHighestIndex inputs
  let outputIndex := findHighestIndex expectedOutputs
  if 0 ≤ inputIndex ∧ 0 ≤ outputIndex then
    let ii := inputIndex.toNat
    let oi := outputIndex.toNat
    match net.layers with
    | [] => net
    | l0 :: rest =>
        let l0g := l0.map (fun n => { n with weights := updAt n.weights ii (· + factor * (1/2)) })
        let m := cdcMiddle factor rest 1 l0g.length
        let outputLayer2 := jsMapIdx (fun j n =>
          { n with
              weights := (List.range m.2).foldl
                (fun w i =>
                  if j = oi then updAt w i (· + factor)
                  else updAt w i (· - factor * (1/2))) n.weights }) net.outputLayer
        { net with layers := l0g :: m.1, outputLayer := outputLayer2 }
  else net

/-- Result record of `trainUntilLearned`. -/
structure TULResult where
  error : ℚ
  attempts : ℕ
  success : Bool
deriving DecidableEq, Repr

/-- The `while (attempts < maxAttempts)` loop of `trainUntilLearned`;
`fuel` is `maxAttempts - attempts`.  Returns the final network, stream,
attempt count, last error and success flag. -/
def tulLoop (ops : SigOps) (inputs expectedOutputs : List ℚ)
    (inputWord outputWord : String) (isDifficult : Bool) (targetIndex : ℤ)
    (targetError : ℚ) :
    ℕ → Net → Rng → ℕ → ℚ → Net × Rng × ℕ × ℚ × Bool
  | 0, net, rng, attempts, lastError => (net, rng, attempts, lastError, false)
  | fuel + 1, net, rng, attempts, _lastError =>
      let attempts2 := attempts + 1
      let baseMultiplier : ℚ := if isDifficult then 2 else 1
      let dynamicReinforcement := baseMultiplier * (1 + (attempts2 : ℚ) * (1/2))
      let tr := train ops net inputs expectedOutputs inputWord outputWord
        dynamicReinforcement rng
      let ff := feedForward ops tr.2.1 inputs 1
      if findHighestIndex ff.1 = targetIndex ∨ tr.1 < targetError then
        (ff.2, tr.2.2, attempts2, tr.1, true)
      else if attempts2 % 3 = 0 then
        let forceFactor : ℚ := if isDifficult then 20 else 10
        let net4 := forceAssociation ff.2 inputs expectedOutputs forceFactor
        let chk := feedForward ops net4 inputs 1
        if findHighestIndex chk.1 = targetIndex then (chk.2, tr.2.2, attempts2, tr.1, true)
        else
          tulLoop ops inputs expectedOutputs inputWord outputWord isDifficult targetIndex
            targetError fuel chk.2 tr.2.2 attempts2 tr.1
      else
        tulLoop ops inputs expectedOutputs inputWord outputWord isDifficult targetIndex
          targetError fuel ff.2 tr.2.2 attempts2 tr.1

/-- Source: `NeuralNetwork.trainUntilLearned`.  Entry check: if the current
argmax prediction already equals the target argmax, record a success and
return zero attempts; otherwise boost learning rates and run the escalating
training loop, with the direct-connection fallback after exhaustion. -/
def trainUntilLearned (ops : SigOps) (net : Net) (inputs expectedOutputs : List ℚ)
    (inputWord outputWord : String) (maxAttempts : ℕ) (targetError : ℚ) (rng : Rng) :
    TULResult × Net × Rng :=
  let cur := feedForward ops net inputs 1
  let currentPrediction := findHighestIndex cur.1
  let targetIndex := findHighestIndex expectedOutputs
  if currentPrediction = targetIndex then
    let tk := trackAssociation cur.2 inputWord outputWord true
    ({ error := 0, attempts := 0, success := true }, tk.2, rng)
  else
    let isDifficult := isConflictingAssociation cur.2 inputWord outputWord
    let net2 := adjustNeuronLearningRates cur.2 (if isDifficult then 4 else 2)
    let lp := tulLoop ops inputs expectedOutputs inputWord outputWord isDifficult
      targetIndex targetError maxAttempts net2 rng 0 1
    let net3 := resetNeuronLearningRates lp.1
    let tk := trackAssociation net3 inputWord outputWord lp.2.2.2.2
    if ¬lp.2.2.2.2 ∧ lp.2.2.1 ≥ maxAttempts then
      let net6 := createDirectConnection tk.2 inputs expectedOutputs 50
      let fin := feedForward ops net6 inputs 1
      ({ error := lp.2.2.2.1, attempts := lp.2.2.1,
         success := decide (findHighestIndex fin.1 = targetIndex) }, fin.2, lp.2.1)
    else
      ({ error := lp.2.2.2.1, attempts := lp.2.2.1, success := lp.2.2.2.2 }, tk.2, lp.2.1)

/-- The `i`-th squared-error term of `NeuralNetwork.train`'s error loop,
over JS numbers: `Math.pow(expectedOutputs[i] - finalOutputs[i], 2)`. -/
def sqErrTerm (expectedOutputs finalOutputs : List JsNum) (i : ℕ) : JsNum :=
  let e := JsNum.sub (getN expectedOutputs i) (getN finalOutputs i)
  JsNum.mul e e

/-- Source: lines 171–179 of `NeuralNetwork.train` (src/unnamed/part_001),
the error accumulation whose result the call returns; this is the exact
numeric-domain model of the loop whose `ℚ` image appears in `train` above.
`errFold` is one iteration: accumulate the squared-error term unless it is
NaN or non-finite. -/
def errFold (expectedOutputs finalOutputs : List JsNum) (acc : JsNum) (i : ℕ) : JsNum :=
  let err := sqErrTerm expectedOutputs finalOutputs i
  if !err.isNaNb && err.isFiniteb then JsNum.add acc err else acc

/-- The whole error block: fold `errFold` over the output indices, then
divide by the number of expected outputs. -/
def trainTotalError (expectedOutputs finalOutputs : List JsNum) : JsNum :=
  let total := (List.range expectedOutputs.length).foldl
    (errFold expectedOutputs finalOutputs) (JsNum.num 0)
  JsNum.div total (JsNum.num (expectedOutputs.length : ℚ))

/-- The finite value of a JS number, if any. -/
def finiteVal : JsNum → Option ℚ
  | JsNum.num q => some q
  | _ => none

/-- The abstract transcendental kernels of the `JsNum` model:
`Math.exp`, `Math.log` and `Math.sqrt` restricted to finite arguments. -/
structure JOps where
  expQ : ℚ → ℚ
  logQ : ℚ → ℚ
  sqrtQ : ℚ → ℚ

/-- The `Math.exp` lifting to JS numbers. -/
def jsExp (ops : JOps) : JsNum → JsNum
  | JsNum.nan => JsNum.nan
  | JsNum.inf => JsNum.inf
  | JsNum.ninf => JsNum.num 0
  | JsNum.num q => JsNum.num (ops.expQ q)

/-- The `Math.log` lifting to JS numbers. -/
def jsLog (ops : JOps) : JsNum → JsNum
  | JsNum.nan => JsNum.nan
  | JsNum.inf => JsNum.inf
  | JsNum.ninf => JsNum.nan
  | JsNum.num q => if q < 0 then JsNum.nan else if q = 0 then JsNum.ninf
      else JsNum.num (ops.logQ q)

/-- The `Math.sqrt` lifting to JS numbers. -/
def jsSqrt (ops : JOps) : JsNum → JsNum
  | JsNum.nan => JsNum.nan
  | JsNum.inf => JsNum.inf
  | JsNum.ninf => JsNum.nan
  | JsNum.num q => if q < 0 then JsNum.nan else JsNum.num (ops.sqrtQ q)

/-- The guarded sigmoid shared by `LSTMLayer` and `AdvancedNetwork`:
clamp outside `[-16, 16]`, else `1 / (1 + exp(-x))`. -/
def jsSigmoid (ops : JOps) (x : JsNum) : JsNum :=
  if JsNum.lt x (JsNum.num (-16)) then JsNum.num 0
  else if JsNum.gt x (JsNum.num 16) then JsNum.num 1
  else JsNum.div (JsNum.num 1) (JsNum.add (JsNum.num 1) (jsExp ops (JsNum.neg x)))

/-- The guarded tanh of `LSTMLayer`: clamp outside `[-16, 16]`, else
`(exp(2x) - 1) / (exp(2x) + 1)`. -/
def jsTanh (ops : JOps) (x : JsNum) : JsNum :=
  if JsNum.lt x (JsNum.num (-16)) then JsNum.num (-1)
  else if JsNum.gt x (JsNum.num 16) then JsNum.num 1
  else
    let exp2x := jsExp ops (JsNum.mul (JsNum.num 2) x)
    JsNum.div (JsNum.sub exp2x (JsNum.num 1)) (JsNum.add exp2x (JsNum.num 1))

/-- Source: `matmul` of src/lstmLayer.js: `result[i] = Σ_j A[i][j]·x[j]`,
summed in order with the inner loop bounded by `x.length`. -/
def matmul (A : List (List JsNum)) (x : List JsNum) : List JsNum :=
  A.map (fun row =>
    (List.range x.length).foldl
      (fun acc j => JsNum.add acc (JsNum.mul (getN row j) (getN x j))) (JsNum.num 0))

/-- Source: `applyDropout` (identical in src/lstmLayer.js and
src/advancedNetwork.js).  Outside training (or at rate 0) the input passes
through without consuming randomness; otherwise each element is scaled by
`1/(1-rate)` or zeroed according to a fresh draw. -/
def applyDropout (x : List JsNum) (rate : ℚ) (training : Bool) (rng : Rng) :
    List JsNum × Rng :=
  if !training || rate = 0 then (x, rng)
  else
    let d := drawList x.length rng
    let mask := d.1.map (fun r =>
      if r > rate then JsNum.div (JsNum.num 1) (JsNum.num (1 - rate)) else JsNum.num 0)
    (jsMapIdx (fun i v => JsNum.mul v (mask.getD i JsNum.nan)) x, d.2)

/-- Source: the `LSTMLayer` class state of src/lstmLayer.js: four input
weight matrices, four recurrent matrices, four bias vectors, running
hidden/cell state and the cached gates of the last forward pass. -/
structure LSTMLayer where
  inputSize : ℕ
  hiddenSize : ℕ
  dropoutRate : ℚ
  Wi : List (List JsNum)
  Wf : List (List JsNum)
  Wc : List (List JsNum)
  Wo : List (List JsNum)
  Ui : List (List JsNum)
  Uf : List (List JsNum)
  Uc : List (List JsNum)
  Uo : List (List JsNum)
  bi : List JsNum
  bf : List JsNum
  bc : List JsNum
  bo : List JsNum
  lastInput : List JsNum
  lastHidden : List JsNum
  lastCell : List JsNum
  gi : List JsNum
  gf : List JsNum
  gcNew : List JsNum
  go : List JsNum
deriving DecidableEq, Repr

/-- Source: `LSTMLayer.resetState`: zero the hidden and cell state. -/
def LSTMLayer.resetState (L : LSTMLayer) : LSTMLayer :=
  { L with
      lastHidden := List.replicate L.hiddenSize (JsNum.num 0)
      lastCell := List.replicate L.hiddenSize (JsNum.num 0) }

/-- Source: `LSTMLayer.forward`.  Computes the four gates from the dropped
input and previous hidden state, the new cell and hidden state, caches the
gates and state, and applies dropout to the returned hidden state. -/
def LSTMLayer.forward (L : LSTMLayer) (ops : JOps) (input : List JsNum)
    (training : Bool) (rng : Rng) : List JsNum × LSTMLayer × Rng :=
  let d := applyDropout input L.dropoutRate training rng
  let droppedInput := d.1
  let hPrev := L.lastHidden
  let cPrev := L.lastCell
  let iG := jsMapIdx (fun idx v => jsSigmoid ops
    (JsNum.add (JsNum.add v (getN (matmul L.Ui hPrev) idx)) (getN L.bi idx)))
    (matmul L.Wi droppedInput)
  let fG := jsMapIdx (fun idx v => jsSigmoid ops
    (JsNum.add (JsNum.add v (getN (matmul L.Uf hPrev) idx)) (getN L.bf idx)))
    (matmul L.Wf droppedInput)
  let cTilda := jsMapIdx (fun idx v => jsTanh ops
    (JsNum.add (JsNum.add v (getN (matmul L.Uc hPrev) idx)) (getN L.bc idx)))
    (matmul L.Wc droppedInput)
  let cT := jsMapIdx (fun idx v =>
    JsNum.add (JsNum.mul (getN fG idx) v) (JsNum.mul (getN iG idx) (getN cTilda idx))) cPrev
  let oG := jsMapIdx (fun idx v => jsSigmoid ops
    (JsNum.add (JsNum.add v (getN (matmul L.Uo hPrev) idx)) (getN L.bo idx)))
    (matmul L.Wo droppedInput)
  let hT := jsMapIdx (fun idx v => JsNum.mul (getN oG idx) (jsTanh ops v)) cT
  let L2 :=
    { L with
        lastInput := input
        gi := iG, gf := fG, gcNew := cTilda, go := oG
        lastHidden := hT
        lastCell := cT }
  let out := applyDropout hT L.dropoutRate training d.2
  (out.1, L2, out.2)

/-- The cell-state gradient of `LSTMLayer.backward`:
`gradHidden[idx] · o[idx] · (1 - tanh(lastCell[idx])²)`. -/
def lstmGradCell (L : LSTMLayer) (ops : JOps) (gradHidden : List JsNum) : List JsNum :=
  jsMapIdx (fun idx v =>
    let th := jsTanh ops (getN L.lastCell idx)
    JsNum.mul (JsNum.mul v (getN L.go idx)) (JsNum.sub (JsNum.num 1) (JsNum.mul th th)))
    gradHidden

/-- The forget-gate gradient of `LSTMLayer.backward`:
`gradCell[idx] · lastCell[idx-1] · f[idx] · (1 - f[idx])`.  At `idx = 0`
the JS read `lastCell[-1]` is `undefined`, whose product is NaN. -/
def lstmGradF (L : LSTMLayer) (ops : JOps) (gradHidden : List JsNum) : List JsNum :=
  jsMapIdx (fun idx v =>
    let cellBefore := if idx = 0 then JsNum.nan else getN L.lastCell (idx - 1)
    JsNum.mul (JsNum.mul (JsNum.mul v cellBefore) (getN L.gf idx))
      (JsNum.sub (JsNum.num 1) (getN L.gf idx)))
    (lstmGradCell L ops gradHidden)

/-- Update a gate weight matrix in place: `W[h][i] -= lr · grad[h] · lastInput[i]`
for `h < hiddenSize`, `i < inputSize`. -/
def lstmUpdW (L : LSTMLayer) (lr : JsNum) (grad : List JsNum) (W : List (List JsNum)) :
    List (List JsNum) :=
  jsMapIdx (fun h row =>
    if h < L.hiddenSize then
      jsMapIdx (fun i w =>
        if i < L.inputSize then
          JsNum.sub w (JsNum.mul (JsNum.mul lr (getN grad h)) (getN L.lastInput i))
        else w) row
    else row) W

/-- Update a gate bias vector in place: `b[h] -= lr · grad[h]` for
`h < hiddenSize`. -/
def lstmUpdB (L : LSTMLayer) (lr : JsNum) (grad : List JsNum) (b : List JsNum) :
    List JsNum :=
  jsMapIdx (fun h v =>
    if h < L.hiddenSize then JsNum.sub v (JsNum.mul lr (getN grad h)) else v) b

/-- Source: `LSTMLayer.backward`.  The simplified one-step backward pass:
gate gradients from the cached forward intermediates, the input gradient as
the four-term weighted sum, then in-place plain-gradient-descent updates of
all gate weights and biases. -/
def LSTMLayer.backward (L : LSTMLayer) (ops : JOps) (gradOutput : List JsNum)
    (lr : JsNum) : List JsNum × LSTMLayer :=
  let gradHidden := gradOutput
  let gradCell := lstmGradCell L ops gradHidden
  let gradO := jsMapIdx (fun idx v =>
    JsNum.mul (JsNum.mul (JsNum.mul v (jsTanh ops (getN L.lastCell idx))) (getN L.go idx))
      (JsNum.sub (JsNum.num 1) (getN L.go idx))) gradHidden
  let gradI := jsMapIdx (fun idx v =>
    JsNum.mul (JsNum.mul (JsNum.mul v (getN L.gcNew idx)) (getN L.gi idx))
      (JsNum.sub (JsNum.num 1) (getN L.gi idx))) gradCell
  let gradF := lstmGradF L ops gradHidden
  let gradCNew := jsMapIdx (fun idx v =>
    JsNum.mul (JsNum.mul v (getN L.gi idx))
      (JsNum.sub (JsNum.num 1) (JsNum.mul (getN L.gcNew idx) (getN L.gcNew idx)))) gradCell
  let gradInput := (List.range L.inputSize).map (fun i =>
    (List.range L.hiddenSize).foldl
      (fun acc h =>
        JsNum.add
          (JsNum.add
            (JsNum.add
              (JsNum.add acc (JsNum.mul (getN gradI h) (mget L.Wi h i)))
              (JsNum.mul (getN gradF h) (mget L.Wf h i)))
            (JsNum.mul (getN gradCNew h) (mget L.Wc h i)))
          (JsNum.mul (getN gradO h) (mget L.Wo h i))) (JsNum.num 0))
  (gradInput,
   { L with
      Wi := lstmUpdW L lr gradI L.Wi
      Wf := lstmUpdW L lr gradF L.Wf
      Wc := lstmUpdW L lr gradCNew L.Wc
      Wo := lstmUpdW L lr gradO L.Wo
      bi := lstmUpdB L lr gradI L.bi
      bf := lstmUpdB L lr gradF L.bf
      bc := lstmUpdB L lr gradCNew L.bc
      bo := lstmUpdB L lr gradO L.bo })

/-- Source: the `EmbeddingLayer` class state of src/AssociationAnalyzer.js:
a vocabulary size, an embedding dimension and one embedding row per
vocabulary index. -/
structure EmbeddingLayer where
  vocabSize : ℕ
  embeddingDim : ℕ
  embeddings : List (List JsNum)
deriving DecidableEq, Repr

/-- Source: one element of `EmbeddingLayer.lookup`: an out-of-range index
(negative or `≥ vocabSize`) yields a zero vector of length `embeddingDim`
rather than failing. -/
def EmbeddingLayer.lookupOne (E : EmbeddingLayer) (idx : ℤ) : List JsNum :=
  if 0 ≤ idx ∧ idx < (E.vocabSize : ℤ) then E.embeddings.getD idx.toNat []
  else List.replicate E.embeddingDim (JsNum.num 0)

/-- Source: `EmbeddingLayer.lookup` over a list of indices. -/
def EmbeddingLayer.lookup (E : EmbeddingLayer) (indices : List ℤ) : List (List JsNum) :=
  indices.map E.lookupOne

/-- Draw `rows` fresh embedding rows of `dim` entries each, every entry via
`Math.random() * 0.2 - 0.1`. -/
def genRows (dim : ℕ) : ℕ → Rng → List (List JsNum) × Rng
  | 0, rng => ([], rng)
  | k + 1, rng =>
      let d := drawList dim rng
      let row := d.1.map (fun q => JsNum.num (q * (1/5) - 1/10))
      let r := genRows dim k d.2
      (row :: r.1, r.2)

/-- Source: `EmbeddingLayer.resize`: grow-only; new rows are appended with
small random fill and the vocabulary size is updated. -/
def EmbeddingLayer.resize (E : EmbeddingLayer) (newVocabSize : ℕ) (rng : Rng) :
    EmbeddingLayer × Rng :=
  if newVocabSize ≤ E.vocabSize then (E, rng)
  else
    let r := genRows E.embeddingDim (newVocabSize - E.vocabSize) rng
    ({ E with embeddings := E.embeddings ++ r.1, vocabSize := newVocabSize }, r.2)

/-- The active (strictly positive) positions of a one-hot/multi-hot input,
in order. -/
def activePositions (input : List JsNum) : List ℕ :=
  (List.range input.length).filter (fun i => JsNum.gt (getN input i) (JsNum.num 0))

/-- Source: `EmbeddingLayer.forward`.  An input of vocabulary length is a
(possibly weighted multi-hot) sparse vector: the weighted sum of the active
rows; otherwise the input is a list of indices whose rows are concatenated.
A fractional in-range index (a JS `undefined` row, unreachable in the
repository's usage) is modelled as an empty row. -/
def EmbeddingLayer.forward (E : EmbeddingLayer) (input : List JsNum) : List JsNum :=
  if input.length = E.vocabSize then
    let active := activePositions input
    if active = [] then List.replicate E.embeddingDim (JsNum.num 0)
    else
      let embs := E.lookup (active.map (fun i => (i : ℤ)))
      let wts := active.map (fun i => getN input i)
      (List.range E.embeddingDim).map (fun j =>
        (List.range active.length).foldl
          (fun acc k => JsNum.add acc (JsNum.mul (getN (embs.getD k []) j) (getN wts k)))
          (JsNum.num 0))
  else
    (input.map (fun v =>
      if JsNum.ge v (JsNum.num 0) && JsNum.lt v (JsNum.num (E.vocabSize : ℚ)) then
        match v with
        | JsNum.num q => if q.den = 1 then E.embeddings.getD q.num.toNat [] else []
        | _ => []
      else List.replicate E.embeddingDim (JsNum.num 0))).flatten

/-- Source: `EmbeddingLayer.backward`: sparse update of the rows active in
the input, `embeddings[idx][d] -= lr · gradients[d]` for `d < embeddingDim`. -/
def EmbeddingLayer.backward (E : EmbeddingLayer) (input gradients : List JsNum)
    (lr : JsNum) : EmbeddingLayer :=
  let active := activePositions input
  if active = [] then E
  else
    { E with
        embeddings := jsMapIdx (fun idx row =>
          if active.contains idx then
            jsMapIdx (fun d w =>
              if d < E.embeddingDim then
                JsNum.sub w (JsNum.mul lr (getN gradients d))
              else w) row
          else row) E.embeddings }

/-- Source: a dense layer object of `AdvancedNetwork.buildNetwork`
(src/advancedNetwork.js). -/
structure DenseLayer where
  inputSize : ℕ
  outputSize : ℕ
  weights : List (List JsNum)
  biases : List JsNum
  lastInput : List JsNum
  lastOutput : List JsNum
  dropoutRate : ℚ
deriving DecidableEq, Repr

/-- A layer of the advanced network: tagged dense or recurrent. -/
inductive ANLayer where
  | dense : DenseLayer → ANLayer
  | lstm : LSTMLayer → ANLayer
deriving DecidableEq, Repr

/-- Whether a layer is a dense layer. -/
def ANLayer.isDense : ANLayer → Bool
  | ANLayer.dense _ => true
  | ANLayer.lstm _ => false

/-- One Adam moment accumulator, parallel in shape to a dense layer. -/
structure AdamMV where
  weights : List (List JsNum)
  biases : List JsNum
deriving DecidableEq, Repr

/-- Source: the `AdvancedNetwork` class state: the embedding table, the
tagged layer stack, the optimizer hyper-parameters and the Adam state
`{t, m, v}` (`m`/`v` hold `null` at recurrent-layer indices). -/
structure AdvancedNetwork where
  vocabSize : ℕ
  embeddingDim : ℕ
  dropout : ℚ
  learningRate : ℚ
  beta1 : ℚ
  beta2 : ℚ
  epsilon : ℚ
  useEmbeddings : Bool
  useLSTM : Bool
  embeddings : EmbeddingLayer
  layers : List ANLayer
  adamT : ℕ
  adamM : List (Option AdamMV)
  adamV : List (Option AdamMV)
deriving DecidableEq, Repr

/-- Source: `AdvancedNetwork.softmax`: subtract the maximum (the spread of
`Math.max`, `-∞` on an empty array), exponentiate, normalise. -/
def softmaxJs (ops : JOps) (x : List JsNum) : List JsNum :=
  let mx := x.foldl JsNum.jmax JsNum.ninf
  let expValues := x.map (fun v => jsExp ops (JsNum.sub v mx))
  let sumExp := expValues.foldl JsNum.add (JsNum.num 0)
  expValues.map (fun v => JsNum.div v sumExp)

/-- Source: `AdvancedNetwork.relu`: `Math.max(0, x)`. -/
def jsRelu (x : JsNum) : JsNum := JsNum.jmax (JsNum.num 0) x

/-- Source: `AdvancedNetwork.forwardDenseLayer`.  Weighted sums plus bias
over the declared sizes, then softmax on the last layer or ReLU-plus-dropout
on a hidden layer; caches input and output. -/
def forwardDenseLayer (ops : JOps) (layer : DenseLayer) (input : List JsNum)
    (training isLast : Bool) (rng : Rng) : List JsNum × DenseLayer × Rng :=
  let preActivation := (List.range layer.outputSize).map (fun i =>
    JsNum.add
      ((List.range layer.inputSize).foldl
        (fun acc j => JsNum.add acc (JsNum.mul (mget layer.weights i j) (getN input j)))
        (JsNum.num 0))
      (getN layer.biases i))
  let r :=
    if isLast then (softmaxJs ops preActivation, rng)
    else applyDropout (preActivation.map jsRelu) layer.dropoutRate training rng
  (r.1, { layer with lastInput := input, lastOutput := r.1 }, r.2)

/-- The forward pass over the enumerated layer stack, threading the random
stream and rebuilding the layers with their updated caches. -/
def fwdLoop (ops : JOps) (training : Bool) (lastIdx : ℕ) :
    List (ℕ × ANLayer) → List JsNum → Rng → List JsNum × List ANLayer × Rng
  | [], cur, rng => (cur, [], rng)
  | (_i, ANLayer.lstm L) :: rest, cur, rng =>
      let s := L.forward ops cur training rng
      let r := fwdLoop ops training lastIdx rest s.1 s.2.2
      (r.1, ANLayer.lstm s.2.1 :: r.2.1, r.2.2)
  | (i, ANLayer.dense D) :: rest, cur, rng =>
      let s := forwardDenseLayer ops D cur training (i = lastIdx) rng
      let r := fwdLoop ops training lastIdx rest s.1 s.2.2
      (r.1, ANLayer.dense s.2.1 :: r.2.1, r.2.2)

/-- Source: `AdvancedNetwork.forward`.  Resets recurrent state when
training with LSTM layers, embeds the input when embeddings are enabled,
runs the stack, and reshapes the final probabilities when the temperature
differs from 1. -/
def anForward (ops : JOps) (net : AdvancedNetwork) (input : List JsNum)
    (training : Bool) (temperature : ℚ) (rng : Rng) :
    List JsNum × AdvancedNetwork × Rng :=
  let layers0 :=
    if net.useLSTM && training then
      net.layers.map (fun l =>
        match l with
        | ANLayer.lstm L => ANLayer.lstm L.resetState
        | d => d)
    else net.layers
  let cur0 := if net.useEmbeddings then net.embeddings.forward input else input
  let r := fwdLoop ops training (layers0.length - 1) layers0.enum cur0 rng
  let outFinal :=
    if temperature ≠ 1 ∧ r.1.length > 0 then
      let logits := r.1.map (fun p =>
        let clipped := JsNum.jmax (JsNum.num (1/10000)) (JsNum.jmin (JsNum.num (9999/10000)) p)
        JsNum.div (jsLog ops (JsNum.div clipped (JsNum.sub (JsNum.num 1) clipped)))
          (JsNum.num temperature))
      softmaxJs ops logits
    else r.1
  (outFinal, { net with layers := r.2.1 }, r.2.2)

/-- Source: `AdvancedNetwork.crossEntropyLoss`: single-target shortcut when
some entry of the target is positive, otherwise the (vacuous) full loop. -/
def crossEntropyLoss (ops : JOps) (predicted target : List JsNum) : JsNum :=
  match target.findIdx? (fun v => JsNum.gt v (JsNum.num 0)) with
  | some i =>
      JsNum.neg (jsLog ops (JsNum.jmax (getN predicted i) (JsNum.num (1/1000000000000000))))
  | none =>
      (List.range target.length).foldl
        (fun loss i =>
          if JsNum.gt (getN target i) (JsNum.num 0) then
            JsNum.sub loss (JsNum.mul (getN target i)
              (jsLog ops (JsNum.jmax (getN predicted i) (JsNum.num (1/1000000000000000)))))
          else loss)
        (JsNum.num 0)

/-- Source: `AdvancedNetwork.outputGradients`: `predicted - target`
pointwise over the predicted vector. -/
def outputGradients (predicted target : List JsNum) : List JsNum :=
  jsMapIdx (fun i p => JsNum.sub p (getN target i)) predicted

/-- Source: `AdvancedNetwork.adamUpdate`.  Increments the shared step
counter `t` first, then updates both moments and the parameters of the
dense layer with the bias-corrected estimates computed from the incremented
counter.  Returns the updated layer, moments and counter. -/
def adamUpdate (ops : JOps) (lr beta1 beta2 epsilon : ℚ) (layer : DenseLayer)
    (gradWeights : List (List JsNum)) (gradBiases : List JsNum)
    (m v : AdamMV) (t0 : ℕ) : DenseLayer × AdamMV × AdamMV × ℕ :=
  let t := t0 + 1
  let mB := jsMapIdx (fun i mb =>
    if i < layer.outputSize then
      JsNum.add (JsNum.mul (JsNum.num beta1) mb)
        (JsNum.mul (JsNum.num (1 - beta1)) (getN gradBiases i))
    else mb) m.biases
  let vB := jsMapIdx (fun i vb =>
    if i < layer.outputSize then
      JsNum.add (JsNum.mul (JsNum.num beta2) vb)
        (JsNum.mul (JsNum.mul (JsNum.num (1 - beta2)) (getN gradBiases i))
          (getN gradBiases i))
    else vb) v.biases
  let biases2 := jsMapIdx (fun i b =>
    if i < layer.outputSize then
      let mCorrected := JsNum.div (getN mB i) (JsNum.num (1 - beta1 ^ t))
      let vCorrected := JsNum.div (getN vB i) (JsNum.num (1 - beta2 ^ t))
      JsNum.sub b (JsNum.div (JsNum.mul (JsNum.num lr) mCorrected)
        (JsNum.add (jsSqrt ops vCorrected) (JsNum.num epsilon)))
    else b) layer.biases
  let mW := jsMapIdx (fun i row =>
    if i < layer.outputSize then
      jsMapIdx (fun j mw =>
        if j < layer.inputSize then
          JsNum.add (JsNum.mul (JsNum.num beta1) mw)
            (JsNum.mul (JsNum.num (1 - beta1)) (mget gradWeights i j))
        else mw) row
    else row) m.weights
  let vW := jsMapIdx (fun i row =>
    if i < layer.outputSize then
      jsMapIdx (fun j vw =>
        if j < layer.inputSize then
          JsNum.add (JsNum.mul (JsNum.num beta2) vw)
            (JsNum.mul (JsNum.mul (JsNum.num (1 - beta2)) (mget gradWeights i j))
              (mget gradWeights i j))
        else vw) row
    else row) v.weights
  let weights2 := jsMapIdx (fun i row =>
    if i < layer.outputSize then
      jsMapIdx (fun j w =>
        if j < layer.inputSize then
          let mCorrected := JsNum.div (mget mW i j) (JsNum.num (1 - beta1 ^ t))
          let vCorrected := JsNum.div (mget vW i j) (JsNum.num (1 - beta2 ^ t))
          JsNum.sub w (JsNum.div (JsNum.mul (JsNum.num lr) mCorrected)
            (JsNum.add (jsSqrt ops vCorrected) (JsNum.num epsilon)))
        else w) row
    else row) layer.weights
  ({ layer with weights := weights2, biases := biases2 },
   ⟨mW, mB⟩, ⟨vW, vB⟩, t)

/-- Source: `AdvancedNetwork.backwardDenseLayer`.  ReLU-masks the incoming
gradient on hidden layers, forms the weight/bias/input gradients, and
applies the Adam update. -/
def backwardDenseLayer (ops : JOps) (lr beta1 beta2 epsilon : ℚ) (layer : DenseLayer)
    (gradOutput : List JsNum) (isLast : Bool) (m v : AdamMV) (t0 : ℕ) :
    List JsNum × DenseLayer × AdamMV × AdamMV × ℕ :=
  let input := layer.lastInput
  let output := layer.lastOutput
  let gradActivation :=
    if isLast then gradOutput
    else jsMapIdx (fun i g =>
      if JsNum.gt (getN output i) (JsNum.num 0) then g else JsNum.num 0) gradOutput
  let gradWeights := (List.range layer.outputSize).map (fun i =>
    (List.range layer.inputSize).map (fun j =>
      JsNum.mul (getN gradActivation i) (getN input j)))
  let gradBiases := (List.range layer.outputSize).map (fun i => getN gradActivation i)
  let gradInput := (List.range layer.inputSize).map (fun j =>
    (List.range layer.outputSize).foldl
      (fun acc i => JsNum.add acc (JsNum.mul (getN gradActivation i) (mget layer.weights i j)))
      (JsNum.num 0))
  let a := adamUpdate ops lr beta1 beta2 epsilon layer gradWeights gradBiases m v t0
  (gradInput, a.1, a.2.1, a.2.2.1, a.2.2.2)

/-- The Adam accumulator actually used for a layer index: `null` entries
(recurrent indices) fall back to an empty accumulator.  Reaching the `null`
fallback from a dense layer would throw in JS; under the parallel-shape
invariant maintained by `initAdamParams` it is unreachable. -/
def getMV (l : List (Option AdamMV)) (i : ℕ) : AdamMV :=
  (l.getD i none).getD ⟨[], []⟩

/-- The backward phase of `AdvancedNetwork.train`: the reversed enumerated
layer stack is processed in order, threading the gradient, the Adam moment
arrays and the shared counter, and rebuilding the layer list (processed
layers are consed so the accumulated list is in original order). -/
def backLoop (ops : JOps) (lr beta1 beta2 epsilon : ℚ) (lastIdx : ℕ) :
    List (ℕ × ANLayer) → List JsNum → List ANLayer →
      List (Option AdamMV) → List (Option AdamMV) → ℕ →
      List JsNum × List ANLayer × List (Option AdamMV) × List (Option AdamMV) × ℕ
  | [], grad, acc, m, v, t => (grad, acc, m, v, t)
  | (_i, ANLayer.lstm L) :: rest, grad, acc, m, v, t =>
      let s := L.backward ops grad (JsNum.num lr)
      backLoop ops lr beta1 beta2 epsilon lastIdx rest s.1 (ANLayer.lstm s.2 :: acc) m v t
  | (i, ANLayer.dense D) :: rest, grad, acc, m, v, t =>
      let s := backwardDenseLayer ops lr beta1 beta2 epsilon D grad (i = lastIdx)
        (getMV m i) (getMV v i) t
      backLoop ops lr beta1 beta2 epsilon lastIdx rest s.1
        (ANLayer.dense s.2.1 :: acc) (m.set i (some s.2.2.1)) (v.set i (some s.2.2.2.1))
        s.2.2.2.2

/-- Source: `AdvancedNetwork.train`.  Forward pass in training mode,
cross-entropy loss, softmax+cross-entropy output gradient, backward pass
through the layers in reverse order (Adam for dense layers, the one-step
backward pass for recurrent layers), and finally the sparse embedding
update with the 0.1 learning-rate scale-down. -/
def anTrain (ops : JOps) (net : AdvancedNetwork) (input target : List JsNum)
    (rng : Rng) : JsNum × AdvancedNetwork × Rng :=
  let f := anForward ops net input true 1 rng
  let net1 := f.2.1
  let loss := crossEntropyLoss ops f.1 target
  let grads0 := outputGradients f.1 target
  let b := backLoop ops net.learningRate net.beta1 net.beta2 net.epsilon
    (net1.layers.length - 1) net1.layers.enum.reverse grads0 [] net1.adamM net1.adamV
    net1.adamT
  let net2 :=
    { net1 with layers := b.2.1, adamM := b.2.2.1, adamV := b.2.2.2.1, adamT := b.2.2.2.2 }
  let net3 :=
    if net2.useEmbeddings then
      { net2 with
          embeddings := net2.embeddings.backward input b.1
            (JsNum.num (net.learningRate * (1/10))) }
    else net2
  (loss, net3, f.2.2)

/-! ## Concrete instantiations used by witnesses -/

/-- A concrete instantiation of the abstract kernels of the `ℚ` model. -/
def opsZero : SigOps := ⟨fun _ => 0, fun _ => 0, fun _ => 0⟩

/-- A concrete instantiation of the abstract kernels of the `JsNum` model. -/
def jopsZero : JOps := ⟨fun _ => 0, fun _ => 0, fun _ => 0⟩

/-- A concrete random stream. -/
def rngZero : Rng := ⟨fun _ => 0, 0⟩

/-! ## C1 — `Neron.output` on an empty input vector -/

/-- Claim C1 counterexample.  The claim asserts that `forward` on an empty
`inputs` vector fails with a `DimensionError` and does not return a value.
`Neron.output` has no failure path at all: here a concrete unit (no weights,
bias 20) is applied to `[]` and returns the value 1 (the clamped activation
of its bias). -/
theorem claim_C1_cex : ((mkNeron [] 20).output opsZero []).1 = 1 := by decide

/-- Claim C1 (amended): for every unit, `output` on an empty inputs vector
does not fail; the weighted sum ranges over zero product terms, so the call
returns `activation(bias)` and caches the empty inputs and that output. -/
theorem claim_C1 (ops : SigOps) (n : Neron) :
    (n.output ops []).1 = activation ops n.bias ∧
    (n.output ops []).2 = { n with lastInputs := [], lastOutput := activation ops n.bias } :=
  ⟨rfl, rfl⟩

/-! ## C4 — NaN/∞ squared-error terms are skipped in `train`'s mean -/

/-- The error-loop accumulator stays a finite number and collects exactly
the finite squared-error terms. -/
theorem trainErrAux (expectedOutputs finalOutputs : List JsNum) (l : List ℕ) :
    ∀ a : ℚ,
      l.foldl (errFold expectedOutputs finalOutputs) (JsNum.num a) =
      JsNum.num (a + ((l.filterMap
        (fun i => finiteVal (sqErrTerm expectedOutputs finalOutputs i))).sum)) := by
  induction l with
  | nil => intro a; simp
  | cons i l ih =>
      intro a
      rw [List.foldl_cons, List.filterMap_cons]
      cases hsq : sqErrTerm expectedOutputs finalOutputs i with
      | num q =>
          have hstep : errFold expectedOutputs finalOutputs (JsNum.num a) i =
              JsNum.num (a + q) := by
            simp [errFold, hsq, JsNum.isNaNb, JsNum.isFiniteb, JsNum.add]
          rw [hstep, ih (a + q)]
          simp only [finiteVal, List.sum_cons]
          rw [add_assoc]
      | nan =>
          have hstep : errFold expectedOutputs finalOutputs (JsNum.num a) i =
              JsNum.num a := by
            simp [errFold, hsq, JsNum.isNaNb]
          rw [hstep, ih a]
          simp only [finiteVal]
      | inf =>
          have hstep : errFold expectedOutputs finalOutputs (JsNum.num a) i =
              JsNum.num a := by
            simp [errFold, hsq, JsNum.isNaNb, JsNum.isFiniteb]
          rw [hstep, ih a]
          simp only [finiteVal]
      | ninf =>
          have hstep : errFold expectedOutputs finalOutputs (JsNum.num a) i =
              JsNum.num a := by
            simp [errFold, hsq, JsNum.isNaNb, JsNum.isFiniteb]
          rw [hstep, ih a]
          simp only [finiteVal]

/-- Claim C4: in `NeuralNetwork.train`'s error computation, per-output
squared-error terms that are NaN or infinite are silently excluded, and the
returned value is the mean of the remaining terms over the number of
expected outputs. -/
theorem claim_C4 (expectedOutputs finalOutputs : List JsNum)
    (h : expectedOutputs ≠ []) :
    trainTotalError expectedOutputs finalOutputs =
      JsNum.num
        ((((List.range expectedOutputs.length).filterMap
            (fun i => finiteVal (sqErrTerm expectedOutputs finalOutputs i))).sum) /
          (expectedOutputs.length : ℚ)) := by
  have h0 : expectedOutputs.length ≠ 0 := fun hlen => h (List.length_eq_zero.mp hlen)
  have hn : (expectedOutputs.length : ℚ) ≠ 0 := Nat.cast_ne_zero.mpr h0
  unfold trainTotalError
  rw [trainErrAux expectedOutputs finalOutputs (List.range expectedOutputs.length) 0]
  simp [JsNum.div, hn]

/-- Claim C4 witness: a concrete call in which the second output is read
out of range (`undefined`, hence a NaN squared error) and is excluded; the
returned error is the remaining term divided by the two outputs. -/
theorem claim_C4_witness :
    ([JsNum.num 1, JsNum.num 3] : List JsNum) ≠ [] ∧
      trainTotalError [JsNum.num 1, JsNum.num 3] [JsNum.num 0] = JsNum.num (1/2) := by
  refine ⟨by decide, (claim_C4 [JsNum.num 1, JsNum.num 3] [JsNum.num 0] (by decide)).trans ?_⟩
  have h2 : List.range ([JsNum.num 1, JsNum.num 3] : List JsNum).length = [0, 1] := rfl
  rw [h2]
  norm_num [List.filterMap_cons, sqErrTerm, getN, List.getD, finiteVal, JsNum.sub,
    JsNum.neg, JsNum.add, JsNum.mul]

/-! ## C8 — `EmbeddingLayer.lookup` on out-of-range indices -/

theorem drawList_length (k : ℕ) (rng : Rng) : (drawList k rng).1.length = k := by
  induction k generalizing rng with
  | zero => rfl
  | succ k ih => simp [drawList, drawQ, ih]

theorem genRows_length (dim k : ℕ) (rng : Rng) : (genRows dim k rng).1.length = k := by
  induction k generalizing rng with
  | zero => rfl
  | succ k ih => simp [genRows, ih]

theorem genRows_row_length (dim k : ℕ) (rng : Rng) :
    ∀ r ∈ (genRows dim k rng).1, r.length = dim := by
  induction k generalizing rng with
  | zero => intro r hr; simp [genRows] at hr
  | succ k ih =>
      intro r hr
      simp only [genRows, List.mem_cons] at hr
      rcases hr with h | h
      · subst h; simp [drawList_length]
      · exact ih _ r h

/-- Claim C8: every out-of-range index (negative or at least the vocabulary
size) is mapped by `lookup` to an all-zero vector of length `embeddingDim`
rather than failing; and in the spec scenario (vocabulary 5, dimension 3,
then `resize(8)`), `lookup([6])` returns a single vector of length 3. -/
theorem claim_C8 (E : EmbeddingLayer) (hrows : E.embeddings.length = E.vocabSize) :
    (∀ idx : ℤ, idx < 0 ∨ (E.vocabSize : ℤ) ≤ idx →
        E.lookupOne idx = List.replicate E.embeddingDim (JsNum.num 0)) ∧
    (E.vocabSize = 5 → E.embeddingDim = 3 → ∀ rng : Rng,
        ((E.resize 8 rng).1.lookup [6]).map List.length = [3]) := by
  constructor
  · intro idx hidx
    unfold EmbeddingLayer.lookupOne
    rw [if_neg]
    omega
  · intro h5 h3 rng
    have hres : (E.resize 8 rng).1 =
        { E with
            embeddings := E.embeddings ++ (genRows E.embeddingDim (8 - E.vocabSize) rng).1
            vocabSize := 8 } := by
      unfold EmbeddingLayer.resize
      rw [if_neg (by omega)]
    have hlen : ((E.embeddings ++ (genRows E.embeddingDim (8 - E.vocabSize) rng).1).getD
        (Int.toNat 6) []).length = 3 := by
      have h6 : Int.toNat 6 = 6 := rfl
      generalize hG : (genRows E.embeddingDim (8 - E.vocabSize) rng).1 = G
      have hGlen : G.length = 3 := by rw [← hG, genRows_length]; omega
      have hGrow : ∀ r ∈ G, r.length = E.embeddingDim := by
        intro r hr
        rw [← hG] at hr
        exact genRows_row_length _ _ _ r hr
      rw [h6, List.getD_eq_getD_get?, List.get?_append_right (by omega), hrows, h5]
      have h1 : (6 - 5 : ℕ) = 1 := rfl
      rw [h1]
      have hmem : G.get? 1 ≠ none := by rw [ne_eq, List.get?_eq_none]; omega
      cases hget : G.get? 1 with
      | none => exact absurd hget hmem
      | some r =>
          simp only [Option.getD_some]
          rw [hGrow r (List.get?_mem hget), h3]
    rw [hres]
    unfold EmbeddingLayer.lookup EmbeddingLayer.lookupOne
    simp only [List.map_cons, List.map_nil]
    rw [if_pos (by decide)]
    rw [hlen]

/-- Claim C8 witness at a concrete table: vocabulary 5, dimension 3, all
rows zero. -/
theorem claim_C8_witness :
    EmbeddingLayer.lookupOne ⟨5, 3, List.replicate 5 (List.replicate 3 (JsNum.num 0))⟩ (-1) =
        List.replicate 3 (JsNum.num 0) ∧
      (((EmbeddingLayer.resize ⟨5, 3, List.replicate 5 (List.replicate 3 (JsNum.num 0))⟩
          8 rngZero).1.lookup [6]).map List.length = [3]) := by
  have h := claim_C8 ⟨5, 3, List.replicate 5 (List.replicate 3 (JsNum.num 0))⟩ (by rfl)
  exact ⟨h.1 (-1) (by left; decide), h.2 rfl rfl rngZero⟩

/-! ## C3 — association strengths stay in `[0.1, 1.0]` -/

/-- Every entry of `alSet l k v` is either the new `(k, v)` pair or an
entry of `l`. -/
theorem mem_alSet {α : Type} (l : List (String × α)) (k : String) (v : α) :
    ∀ p ∈ alSet l k v, p = (k, v) ∨ p ∈ l := by
  intro p hp
  unfold alSet at hp
  by_cases hf : (l.find? (fun q => q.1 == k)).isSome
  · rw [if_pos hf] at hp
    obtain ⟨q, hq, hpq⟩ := List.mem_map.mp hp
    by_cases hqk : (q.1 == k) = true
    · rw [if_pos hqk] at hpq; exact Or.inl hpq.symm
    · rw [if_neg hqk] at hpq; exact Or.inr (hpq ▸ hq)
  · rw [if_neg hf] at hp
    rcases List.mem_append.mp hp with h | h
    · exact Or.inr h
    · exact Or.inl (List.mem_singleton.mp h)

/-- A successful `alGet` returns the value of some entry. -/
theorem alGet_some_mem {α : Type} {l : List (String × α)} {k : String} {s : α}
    (h : alGet l k = some s) : ∃ p, p ∈ l ∧ p.2 = s := by
  unfold alGet at h
  obtain ⟨p, hp, hps⟩ := Option.map_eq_some'.mp h
  exact ⟨p, List.mem_of_find?_eq_some hp, hps⟩

/-- One `trackAssociation` call keeps every stored strength in
`[0.1, 1.0]`. -/
theorem trackAssociation_strengths (net : Net) (iw ow : String) (b : Bool)
    (h : ∀ p ∈ net.assocStrengths, 1/10 ≤ p.2 ∧ p.2 ≤ 1) :
    ∀ p ∈ ((trackAssociation net iw ow b).2).assocStrengths, 1/10 ≤ p.2 ∧ p.2 ≤ 1 := by
  intro p hp
  unfold trackAssociation at hp
  set key := iw ++ ":" ++ ow with hkey
  by_cases hfresh : (alGet net.assocStrengths key).isNone
  · simp only [hfresh, if_true] at hp
    have hcur : (alGet (alSet net.assocStrengths key (1/2)) key).getD 0 = 0 ∨
        (1/10 ≤ (alGet (alSet net.assocStrengths key (1/2)) key).getD 0 ∧
          (alGet (alSet net.assocStrengths key (1/2)) key).getD 0 ≤ 1) ∨
        (alGet (alSet net.assocStrengths key (1/2)) key).getD 0 = 1/2 := by
      cases hv : alGet (alSet net.assocStrengths key (1/2)) key with
      | none => left; rfl
      | some s =>
          obtain ⟨q, hq, hqs⟩ := alGet_some_mem hv
          rcases mem_alSet _ _ _ q hq with hq1 | hq2
          · right; right; rw [Option.getD_some, ← hqs, hq1]
          · right; left; rw [Option.getD_some, ← hqs]; exact h q hq2
    set cur := (alGet (alSet net.assocStrengths key (1/2)) key).getD 0 with hc
    have hcur01 : 0 ≤ cur ∧ cur ≤ 1 := by
      rcases hcur with h0 | hb | hh
      · rw [h0]; norm_num
      · constructor <;> [linarith [hb.1]; exact hb.2]
      · rw [hh]; norm_num
    have hns : 1/10 ≤ (if b then cur + (1 - cur) * (1/5) else max (1/10) (cur * (4/5))) ∧
        (if b then cur + (1 - cur) * (1/5) else max (1/10) (cur * (4/5))) ≤ 1 := by
      cases b with
      | true =>
          rw [if_pos rfl]
          constructor <;> nlinarith [hcur01.1, hcur01.2]
      | false =>
          rw [if_neg Bool.false_ne_true]
          constructor
          · exact le_max_left _ _
          · apply max_le (by norm_num); nlinarith [hcur01.1, hcur01.2]
    rcases mem_alSet _ _ _ p hp with h1 | h2
    · rw [h1]; exact hns
    · rcases mem_alSet _ _ _ p h2 with h3 | h4
      · rw [h3]; norm_num
      · exact h p h4
  · simp only [hfresh, if_false] at hp
    have hcur01 : 0 ≤ (alGet net.assocStrengths key).getD 0 ∧
        (alGet net.assocStrengths key).getD 0 ≤ 1 := by
      cases hv : alGet net.assocStrengths key with
      | none => norm_num
      | some s =>
          obtain ⟨q, hq, hqs⟩ := alGet_some_mem hv
          have := h q hq
          rw [Option.getD_some, ← hqs]
          constructor <;> [linarith [this.1]; exact this.2]
    set cur := (alGet net.assocStrengths key).getD 0 with hc
    have hns : 1/10 ≤ (if b then cur + (1 - cur) * (1/5) else max (1/10) (cur * (4/5))) ∧
        (if b then cur + (1 - cur) * (1/5) else max (1/10) (cur * (4/5))) ≤ 1 := by
      cases b with
      | true =>
          rw [if_pos rfl]
          constructor <;> nlinarith [hcur01.1, hcur01.2]
      | false =>
          rw [if_neg Bool.false_ne_true]
          constructor
          · exact le_max_left _ _
          · apply max_le (by norm_num); nlinarith [hcur01.1, hcur01.2]
    rcases mem_alSet _ _ _ p hp with h1 | h2
    · rw [h1]; exact hns
    · exact h p h2

/-- The fold of `trackAssociation` over a call sequence (any interleaving
of labels and success flags). -/
def trackAll (net : Net) (calls : List (String × String × Bool)) : Net :=
  calls.foldl (fun n c => (trackAssociation n c.1 c.2.1 c.2.2).2) net

/-- Claim C3: starting from any state whose stored strengths are in
`[0.1, 1.0]` (in particular the empty initial memory), every stored
association strength still lies in `[0.1, 1.0]` after any finite sequence
of `trackAssociation` calls with arbitrary success/failure flags. -/
theorem claim_C3 (calls : List (String × String × Bool)) (net0 : Net)
    (h0 : ∀ p ∈ net0.assocStrengths, 1/10 ≤ p.2 ∧ p.2 ≤ 1) :
    ∀ k s, alGet (trackAll net0 calls).assocStrengths k = some s →
      1/10 ≤ s ∧ s ≤ 1 := by
  have hin : ∀ p ∈ (trackAll net0 calls).assocStrengths, 1/10 ≤ p.2 ∧ p.2 ≤ 1 := by
    induction calls generalizing net0 with
    | nil => exact h0
    | cons c rest ih =>
        exact ih ((trackAssociation net0 c.1 c.2.1 c.2.2).2)
          (trackAssociation_strengths net0 c.1 c.2.1 c.2.2 h0)
  intro k s hs
  obtain ⟨p, hp, hps⟩ := alGet_some_mem hs
  exact hps ▸ hin p hp

/-- Claim C3 witness: from the empty memory, one failed `track` call on
`("a","b")` stores strength `max(0.1, 0.5·0.8) = 0.4`, inside the bounds. -/
theorem claim_C3_witness :
    alGet (trackAll ⟨0, 0, [], [], [], []⟩ [("a", "b", false)]).assocStrengths "a:b" =
        some (2/5) ∧
      1/10 ≤ (2/5 : ℚ) ∧ (2/5 : ℚ) ≤ 1 := by
  have hkey : alGet (trackAll ⟨0, 0, [], [], [], []⟩ [("a", "b", false)]).assocStrengths
      "a:b" = some (2/5) := by
    have hs : ("a" ++ ":" ++ "b" : String) = "a:b" := rfl
    norm_num [trackAll, trackAssociation, alGet, alSet, List.find?, hs, beq_self_eq_true]
  exact ⟨hkey, claim_C3 [("a", "b", false)] ⟨0, 0, [], [], [], []⟩ (by simp) "a:b" (2/5) hkey⟩

/-! ## C6 — resize idempotence and no-shrink -/

/-- The recorded input size after `resize` is the requested one
(unconditional assignment in the source). -/
theorem resize_inputSize (net : Net) (a b : ℕ) (rng : Rng) :
    ((resize net a b rng).1).inputSize = a := rfl

/-- The recorded output size after `resize` grows to `b` only when `b` is
larger. -/
theorem resize_outputSize (net : Net) (a b : ℕ) (rng : Rng) :
    ((resize net a b rng).1).outputSize =
      if net.outputSize < b then b else net.outputSize := by
  unfold resize
  by_cases h1 : net.inputSize < a <;> by_cases h2 : net.outputSize < b <;>
    simp [h1, h2, gt_iff_lt]

/-- Applying `resize` with a matching input size and a non-growing output size is
the identity on the network. -/
theorem resize_noop (net : Net) (a b : ℕ) (rng : Rng) (hi : net.inputSize = a)
    (ho : ¬ net.outputSize < b) : (resize net a b rng).1 = net := by
  have h1 : ¬ a > net.inputSize := by omega
  have h2 : ¬ b > net.outputSize := ho
  simp only [resize, if_neg h1, if_neg h2]
  rw [← hi]

/-- Claim C6: a second `resize` with the same sizes is a no-op on the
network state, and a `resize` whose sizes do not exceed the current ones
leaves every existing unit (hidden layers and output layer, in particular
every weight vector) unchanged.  (`layers ≠ []` keeps the statement inside
the domain where the JS growth path would not throw.) -/
theorem claim_C6 (net : Net) (a b : ℕ) (rng1 rng2 rng3 : Rng) (_hl : net.layers ≠ []) :
    (resize (resize net a b rng1).1 a b rng2).1 = (resize net a b rng1).1 ∧
    (a ≤ net.inputSize → b ≤ net.outputSize →
      ((resize net a b rng3).1.layers = net.layers ∧
       (resize net a b rng3).1.outputLayer = net.outputLayer)) := by
  refine ⟨resize_noop _ a b rng2 (resize_inputSize net a b rng1) ?_, ?_⟩
  · rw [resize_outputSize]
    split <;> omega
  · intro ha hb
    have h1 : ¬ a > net.inputSize := by omega
    have h2 : ¬ b > net.outputSize := by omega
    constructor
    · simp only [resize, if_neg h1]
    · simp only [resize, if_neg h2]

/-- A concrete one-unit network used by the C6 witness. -/
def netC6 : Net := ⟨1, 1, [[mkNeron [0] 0]], [mkNeron [0] 0], [], []⟩

/-- Claim C6 witness: both parts at a concrete network with matching
sizes. -/
theorem claim_C6_witness :
    (resize (resize netC6 1 1 rngZero).1 1 1 rngZero).1 = (resize netC6 1 1 rngZero).1 ∧
    ((resize netC6 1 1 rngZero).1.layers = netC6.layers ∧
     (resize netC6 1 1 rngZero).1.outputLayer = netC6.outputLayer) :=
  ⟨(claim_C6 netC6 1 1 rngZero rngZero rngZero (by simp [netC6])).1,
   (claim_C6 netC6 1 1 rngZero rngZero rngZero (by simp [netC6])).2
     (by decide) (by decide)⟩


/-! ## C5 — feedForward output length and the pad/truncate law -/

theorem padTruncate_length (sz : ℕ) (l : List ℚ) : (padTruncate sz l).length = sz := by
  unfold padTruncate
  split_ifs with h1 h2
  · simp only [List.length_append, List.length_replicate]; omega
  · simp only [List.length_take]; omega
  · omega

theorem padTruncate_of_length_eq (sz : ℕ) (l : List ℚ) (h : l.length = sz) :
    padTruncate sz l = l := by
  unfold padTruncate
  rw [if_neg (by omega), if_neg (by omega)]

/-- Claim C5: for every network whose output layer has the configured
output size, `feedForward` returns a vector of exactly that length for an
input vector of any length, and the result coincides with the result on the
explicitly padded/truncated input (zero-pad when short, truncate when long,
silently). -/
theorem claim_C5 (ops : SigOps) (net : Net) (inputs : List ℚ) (temperature : ℚ)
    (hwf : net.outputLayer.length = net.outputSize) :
    (feedForward ops net inputs temperature).1.length = net.outputSize ∧
    (feedForward ops net inputs temperature).1 =
      (feedForward ops net (padTruncate net.inputSize inputs) temperature).1 := by
  constructor
  · by_cases ht : temperature ≠ 1 <;> simp [feedForward, ht, hwf]
  · unfold feedForward
    rw [padTruncate_of_length_eq _ _ (padTruncate_length net.inputSize inputs)]

/-- Claim C5 witness at a concrete one-unit network and an empty (too
short) input vector. -/
theorem claim_C5_witness :
    (feedForward opsZero netC6 [] 1).1.length = netC6.outputSize ∧
    (feedForward opsZero netC6 [] 1).1 =
      (feedForward opsZero netC6 (padTruncate netC6.inputSize []) 1).1 :=
  claim_C5 opsZero netC6 [] 1 (by decide)

/-! ## C7 — feedForward is observationally pure -/

/-- The parameters of a unit that determine its output value. -/
def nParams (n : Neron) : List ℚ × ℚ := (n.weights, n.bias)

theorem nParams_output (n : Neron) (ops : SigOps) (inputs : List ℚ) :
    nParams ((n.output ops inputs).2) = nParams n := rfl

theorem output_fst_congr {n1 n2 : Neron} (h : nParams n1 = nParams n2)
    (ops : SigOps) (inputs : List ℚ) :
    (n1.output ops inputs).1 = (n2.output ops inputs).1 := by
  have hw : n1.weights = n2.weights := congrArg Prod.fst h
  have hb : n1.bias = n2.bias := congrArg Prod.snd h
  unfold Neron.output
  rw [hw, hb]

theorem layerVals_congr (ops : SigOps) (x : List ℚ) :
    ∀ {l1 l2 : List Neron}, l1.map nParams = l2.map nParams →
      l1.map (fun n => (n.output ops x).1) = l2.map (fun n => (n.output ops x).1) := by
  intro l1
  induction l1 with
  | nil =>
      intro l2 h
      cases l2 with
      | nil => rfl
      | cons m t => simp at h
  | cons n l ih =>
      intro l2 h
      cases l2 with
      | nil => simp at h
      | cons m t =>
          simp only [List.map_cons, List.cons.injEq] at h ⊢
          exact ⟨output_fst_congr h.1 ops x, ih h.2⟩

theorem layer_snd_params (ops : SigOps) (x : List ℚ) (l : List Neron) :
    ((l.map (fun n => n.output ops x)).map Prod.snd).map nParams = l.map nParams := by
  induction l with
  | nil => rfl
  | cons n l ih => simp only [List.map_cons, ih, nParams_output]

theorem runLayers_snd_params (ops : SigOps) :
    ∀ (ls : List (List Neron)) (x : List ℚ),
      ((runLayers ops ls x).2).map (fun l => l.map nParams) =
        ls.map (fun l => l.map nParams) := by
  intro ls
  induction ls with
  | nil => intro x; rfl
  | cons layer rest ih =>
      intro x
      simp only [runLayers, List.map_cons, List.cons.injEq]
      exact ⟨layer_snd_params ops x layer, ih _⟩

theorem runLayers_fst_congr (ops : SigOps) :
    ∀ {ls1 ls2 : List (List Neron)} (x : List ℚ),
      ls1.map (fun l => l.map nParams) = ls2.map (fun l => l.map nParams) →
      (runLayers ops ls1 x).1 = (runLayers ops ls2 x).1 := by
  intro ls1
  induction ls1 with
  | nil =>
      intro ls2 x h
      cases ls2 with
      | nil => rfl
      | cons l t => simp at h
  | cons layer rest ih =>
      intro ls2 x h
      cases ls2 with
      | nil => simp at h
      | cons layer2 rest2 =>
          simp only [List.map_cons, List.cons.injEq] at h
          simp only [runLayers, List.map_map, Function.comp_def]
          rw [layerVals_congr ops x h.1]
          exact ih _ h.2

/-- The value of `feedForward` depends only on the input, the recorded
input size and the unit parameters — not on any cached state. -/
theorem feedForward_fst_congr (ops : SigOps) {net1 net2 : Net}
    (inputs : List ℚ) (temperature : ℚ)
    (hin : net1.inputSize = net2.inputSize)
    (hlay : net1.layers.map (fun l => l.map nParams) =
      net2.layers.map (fun l => l.map nParams))
    (hout : net1.outputLayer.map nParams = net2.outputLayer.map nParams) :
    (feedForward ops net1 inputs temperature).1 =
      (feedForward ops net2 inputs temperature).1 := by
  have hrun := runLayers_fst_congr ops (padTruncate net2.inputSize inputs) hlay
  have hraw0 :
      List.map Prod.fst (List.map (fun n => n.output ops
          (runLayers ops net2.layers (padTruncate net2.inputSize inputs)).1) net1.outputLayer) =
      List.map Prod.fst (List.map (fun n => n.output ops
          (runLayers ops net2.layers (padTruncate net2.inputSize inputs)).1) net2.outputLayer) := by
    simp only [List.map_map, Function.comp_def]
    exact layerVals_congr ops _ hout
  simp only [feedForward]
  rw [hin, hrun, hraw0]

theorem feedForward_inputSize (ops : SigOps) (net : Net) (inputs : List ℚ)
    (temperature : ℚ) :
    ((feedForward ops net inputs temperature).2).inputSize = net.inputSize := rfl

theorem feedForward_layers_params (ops : SigOps) (net : Net) (inputs : List ℚ)
    (temperature : ℚ) :
    ((feedForward ops net inputs temperature).2).layers.map (fun l => l.map nParams) =
      net.layers.map (fun l => l.map nParams) :=
  runLayers_snd_params ops net.layers _

theorem feedForward_outputLayer_params (ops : SigOps) (net : Net) (inputs : List ℚ)
    (temperature : ℚ) :
    ((feedForward ops net inputs temperature).2).outputLayer.map nParams =
      net.outputLayer.map nParams :=
  layer_snd_params ops _ net.outputLayer

/-- Claim C7: calling `feedForward` twice with the identical input vector
and temperature, with no intervening `train`, yields identical outputs —
inference mutates only per-unit caches, which do not affect the result. -/
theorem claim_C7 (ops : SigOps) (net : Net) (inputs : List ℚ) (temperature : ℚ) :
    (feedForward ops (feedForward ops net inputs temperature).2 inputs temperature).1 =
      (feedForward ops net inputs temperature).1 :=
  feedForward_fst_congr ops inputs temperature
    (feedForward_inputSize ops net inputs temperature)
    (feedForward_layers_params ops net inputs temperature)
    (feedForward_outputLayer_params ops net inputs temperature)

/-! ## C2 — trainUntilLearned on an already-correct association -/

theorem find?_append_singleton_of_none {α : Type} (l : List (String × α)) (k : String)
    (v : α) (h : l.find? (fun p => p.1 == k) = none) :
    (l ++ [(k, v)]).find? (fun p => p.1 == k) = some (k, v) := by
  induction l with
  | nil => simp [List.find?]
  | cons q l ih =>
      by_cases hq : (q.1 == k) = true
      · rw [List.find?_cons] at h
        rw [hq] at h
        simp at h
      · have hq2 : (q.1 == k) = false := by revert hq; cases q.1 == k <;> simp
        rw [List.find?_cons, hq2] at h
        rw [List.cons_append, List.find?_cons, hq2]
        exact ih h

theorem find?_map_set_of_some {α : Type} (l : List (String × α)) (k : String) (v : α)
    (h : (l.find? (fun p => p.1 == k)).isSome) :
    (l.map (fun p => if p.1 == k then (k, v) else p)).find? (fun p => p.1 == k) =
      some (k, v) := by
  induction l with
  | nil => simp [List.find?] at h
  | cons q l ih =>
      by_cases hq : (q.1 == k) = true
      · rw [List.map_cons, if_pos hq]
        simp [List.find?]
      · have hq2 : (q.1 == k) = false := by revert hq; cases q.1 == k <;> simp
        rw [List.find?_cons, hq2] at h
        rw [List.map_cons, if_neg hq, List.find?_cons, hq2]
        exact ih h

/-- Reading with `alGet` after `alSet` at the same key returns the new value. -/
theorem alGet_alSet_self {α : Type} (l : List (String × α)) (k : String) (v : α) :
    alGet (alSet l k v) k = some v := by
  unfold alGet alSet
  by_cases hf : (l.find? (fun p => p.1 == k)).isSome
  · rw [if_pos hf, find?_map_set_of_some l k v hf]
    rfl
  · rw [if_neg hf, find?_append_singleton_of_none l k v
      (by revert hf; cases h : l.find? (fun p => p.1 == k) <;> simp [h])]
    rfl

/-- The unit parameters of the whole network: per unit, its weight vector
and bias, for the hidden layers and the output layer. -/
def netParams (net : Net) : List (List (List ℚ × ℚ)) × List (List ℚ × ℚ) :=
  (net.layers.map (fun l => l.map nParams), net.outputLayer.map nParams)

theorem feedForward_netParams (ops : SigOps) (net : Net) (inputs : List ℚ)
    (temperature : ℚ) :
    netParams ((feedForward ops net inputs temperature).2) = netParams net := by
  unfold netParams
  rw [feedForward_layers_params, feedForward_outputLayer_params]

theorem trackAssociation_netParams (net : Net) (iw ow : String) (b : Bool) :
    netParams ((trackAssociation net iw ow b).2) = netParams net := rfl

theorem trackAssociation_assoc_of_ff (ops : SigOps) (net : Net) (inputs : List ℚ)
    (temperature : ℚ) :
    ((feedForward ops net inputs temperature).2).assocStrengths = net.assocStrengths := rfl

/-- A successful `trackAssociation` stores the success-updated strength
`s + (1-s)·0.2` at the pair's key, defaulting the prior strength to the
lazy initialisation value 0.5. -/
theorem trackAssociation_success_strength (net : Net) (iw ow : String) :
    alGet ((trackAssociation net iw ow true).2).assocStrengths (iw ++ ":" ++ ow) =
      some (((alGet net.assocStrengths (iw ++ ":" ++ ow)).getD (1/2)) +
        (1 - (alGet net.assocStrengths (iw ++ ":" ++ ow)).getD (1/2)) * (1/5)) := by
  simp only [trackAssociation]
  by_cases hfresh : (alGet net.assocStrengths (iw ++ ":" ++ ow)).isNone
  · rw [if_pos hfresh]
    rw [Option.isNone_iff_eq_none] at hfresh
    simp only [alGet_alSet_self, hfresh, Option.getD_some, Option.getD_none, if_true]
  · rw [if_neg hfresh]
    cases halg : alGet net.assocStrengths (iw ++ ":" ++ ow) with
    | none => rw [halg] at hfresh; exact absurd rfl hfresh
    | some s => simp only [alGet_alSet_self, halg, Option.getD_some, if_true]

/-- Claim C2: when the current argmax prediction for `inputs` already
equals the argmax of `expectedOutputs`, `trainUntilLearned` returns
`{error: 0, attempts: 0, success: true}`, leaves every unit's weights and
bias unchanged, and records a success for the pair in the association
memory. -/
theorem claim_C2 (ops : SigOps) (net : Net) (inputs expectedOutputs : List ℚ)
    (inputWord outputWord : String) (maxAttempts : ℕ) (targetError : ℚ) (rng : Rng)
    (h : findHighestIndex (feedForward ops net inputs 1).1 =
      findHighestIndex expectedOutputs) :
    (trainUntilLearned ops net inputs expectedOutputs inputWord outputWord maxAttempts
        targetError rng).1 = ⟨0, 0, true⟩ ∧
    netParams ((trainUntilLearned ops net inputs expectedOutputs inputWord outputWord
        maxAttempts targetError rng).2.1) = netParams net ∧
    alGet ((trainUntilLearned ops net inputs expectedOutputs inputWord outputWord
          maxAttempts targetError rng).2.1).assocStrengths
        (inputWord ++ ":" ++ outputWord) =
      some (((alGet net.assocStrengths (inputWord ++ ":" ++ outputWord)).getD (1/2)) +
        (1 - (alGet net.assocStrengths (inputWord ++ ":" ++ outputWord)).getD (1/2)) *
          (1/5)) := by
  simp only [trainUntilLearned]
  rw [if_pos h]
  refine ⟨rfl, ?_, ?_⟩
  · rw [trackAssociation_netParams, feedForward_netParams]
  · rw [trackAssociation_success_strength, trackAssociation_assoc_of_ff]

/-- Claim C2 witness: a concrete one-unit network that already predicts
index 0 for target `[1]`. -/
theorem claim_C2_witness :
    (trainUntilLearned opsZero netC6 [1] [1] "a" "b" 30 (1/10000) rngZero).1 =
      ⟨0, 0, true⟩ :=
  (claim_C2 opsZero netC6 [1] [1] "a" "b" 30 (1/10000) rngZero
    (by norm_num [feedForward, padTruncate, runLayers, Neron.output, activation, opsZero,
      netC6, mkNeron, findHighestIndex, fhiGo])).1

/-! ## C10 — the forget-gate gradient poisons row 0 with NaN -/

theorem getN_cons_zero (a : JsNum) (l : List JsNum) : getN (a :: l) 0 = a := rfl

theorem jsMapIdxGo_all_nan (n : ℕ) :
    ∀ (r : List JsNum) (k : ℕ), k + r.length ≤ n →
      ∀ w ∈ jsMapIdxGo (fun i w => if i < n then JsNum.nan else w) k r, w = JsNum.nan := by
  intro r
  induction r with
  | nil => intro k hk w hw; simp at hw
  | cons a t ih =>
      intro k hk w hw
      simp only [jsMapIdxGo_cons, List.mem_cons] at hw
      rcases hw with h | h
      · rw [h, if_pos (by simp at hk; omega)]
      · exact ih (k + 1) (by simp at hk ⊢; omega) w h

/-- Claim C10: in `LSTMLayer.backward`, the forget-gate gradient at hidden
index 0 is computed from `lastCell[-1]` (`undefined`, hence NaN under
multiplication), so for every layer with `hiddenSize ≥ 1` a single backward
call makes `gradF[0]` NaN and leaves row 0 of the forget-gate weights and
its bias equal to NaN. -/
theorem claim_C10 (ops : JOps) (L : LSTMLayer) (lr : JsNum) (gradOutput : List JsNum)
    (hh : 1 ≤ L.hiddenSize) (hg : gradOutput ≠ [])
    (hW : L.Wf.length = L.hiddenSize)
    (hrow : (L.Wf.headD []).length = L.inputSize)
    (hb : L.bf.length = L.hiddenSize) :
    getN (lstmGradF L ops gradOutput) 0 = JsNum.nan ∧
    (∀ w ∈ ((L.backward ops gradOutput lr).2).Wf.headD [], w = JsNum.nan) ∧
    getN ((L.backward ops gradOutput lr).2).bf 0 = JsNum.nan := by
  have h1 : getN (lstmGradF L ops gradOutput) 0 = JsNum.nan := by
    cases gradOutput with
    | nil => exact absurd rfl hg
    | cons g gs =>
        simp [lstmGradF, lstmGradCell, jsMapIdx, getN, JsNum.mul_nan, JsNum.nan_mul]
  refine ⟨h1, ?_, ?_⟩
  · have hfun : (fun i w => if i < L.inputSize then
        JsNum.sub w (JsNum.mul (JsNum.mul lr (getN (lstmGradF L ops gradOutput) 0))
          (getN L.lastInput i)) else w) =
        (fun i w => if i < L.inputSize then JsNum.nan else w) := by
      funext i w
      rw [h1]
      simp [JsNum.mul_nan, JsNum.nan_mul, JsNum.sub_nan]
    cases hWf : L.Wf with
    | nil => rw [hWf] at hW; simp at hW; omega
    | cons r0 rows =>
        have hback : ((L.backward ops gradOutput lr).2).Wf =
            lstmUpdW L lr (lstmGradF L ops gradOutput) L.Wf := rfl
        have hr0 : r0.length = L.inputSize := by rw [hWf] at hrow; simpa using hrow
        intro w hw
        rw [hback, hWf] at hw
        simp only [lstmUpdW, jsMapIdx, jsMapIdxGo_cons, List.headD_cons] at hw
        rw [if_pos (by omega)] at hw
        rw [hfun] at hw
        exact jsMapIdxGo_all_nan L.inputSize r0 0 (by omega) w hw
  · cases hbf : L.bf with
    | nil => rw [hbf] at hb; simp at hb; omega
    | cons b0 bs =>
        have hback : ((L.backward ops gradOutput lr).2).bf =
            lstmUpdB L lr (lstmGradF L ops gradOutput) L.bf := rfl
        rw [hback, hbf]
        simp only [lstmUpdB, jsMapIdx, jsMapIdxGo_cons, getN_cons_zero]
        rw [if_pos (by omega), h1]
        simp [JsNum.mul_nan, JsNum.sub_nan]

/-- A concrete 1×1 recurrent layer for the C10 witness. -/
def lstmW : LSTMLayer :=
  { inputSize := 1, hiddenSize := 1, dropoutRate := 0
    Wi := [[JsNum.num 0]], Wf := [[JsNum.num 0]], Wc := [[JsNum.num 0]]
    Wo := [[JsNum.num 0]], Ui := [[JsNum.num 0]], Uf := [[JsNum.num 0]]
    Uc := [[JsNum.num 0]], Uo := [[JsNum.num 0]]
    bi := [JsNum.num 0], bf := [JsNum.num 1], bc := [JsNum.num 0], bo := [JsNum.num 0]
    lastInput := [JsNum.num 0], lastHidden := [JsNum.num 0], lastCell := [JsNum.num 0]
    gi := [JsNum.num 0], gf := [JsNum.num 0], gcNew := [JsNum.num 0], go := [JsNum.num 0] }

/-- Claim C10 witness: the concrete layer's forget-gate gradient and
updated forget bias after one backward call are NaN. -/
theorem claim_C10_witness :
    getN (lstmGradF lstmW jopsZero [JsNum.num 1]) 0 = JsNum.nan ∧
    getN ((lstmW.backward jopsZero [JsNum.num 1] (JsNum.num 1)).2).bf 0 = JsNum.nan := by
  have h := claim_C10 jopsZero lstmW (JsNum.num 1) [JsNum.num 1]
    (by decide) (by decide) (by decide) (by decide) (by decide)
  exact ⟨h.1, h.2.2⟩

/-! ## C9 — the shared Adam counter advances once per dense layer -/

theorem adamUpdate_t (ops : JOps) (lr beta1 beta2 epsilon : ℚ) (layer : DenseLayer)
    (gradWeights : List (List JsNum)) (gradBiases : List JsNum) (m v : AdamMV) (t0 : ℕ) :
    (adamUpdate ops lr beta1 beta2 epsilon layer gradWeights gradBiases m v t0).2.2.2 =
      t0 + 1 := rfl

theorem backwardDenseLayer_t (ops : JOps) (lr beta1 beta2 epsilon : ℚ)
    (layer : DenseLayer) (gradOutput : List JsNum) (isLast : Bool) (m v : AdamMV)
    (t0 : ℕ) :
    (backwardDenseLayer ops lr beta1 beta2 epsilon layer gradOutput isLast m v t0).2.2.2.2 =
      t0 + 1 := rfl

theorem backLoop_t (ops : JOps) (lr beta1 beta2 epsilon : ℚ) (lastIdx : ℕ) :
    ∀ (l : List (ℕ × ANLayer)) (grad : List JsNum) (acc : List ANLayer)
      (m v : List (Option AdamMV)) (t : ℕ),
      (backLoop ops lr beta1 beta2 epsilon lastIdx l grad acc m v t).2.2.2.2 =
        t + l.countP (fun p => p.2.isDense) := by
  intro l
  induction l with
  | nil => intro grad acc m v t; simp [backLoop]
  | cons hd rest ih =>
      intro grad acc m v t
      obtain ⟨i, layer⟩ := hd
      cases layer with
      | lstm L =>
          simp [backLoop, ih, List.countP_cons, ANLayer.isDense]
      | dense D =>
          simp [backLoop, ih, backwardDenseLayer_t, List.countP_cons, ANLayer.isDense]
          omega

theorem countP_enum_snd (l : List ANLayer) :
    l.enum.countP (fun p => p.2.isDense) = l.countP ANLayer.isDense := by
  have h := List.countP_map ANLayer.isDense Prod.snd l.enum
  rw [List.enum_map_snd] at h
  show l.enum.countP (ANLayer.isDense ∘ Prod.snd) = l.countP ANLayer.isDense
  exact h.symm

theorem countP_enum_reverse (l : List ANLayer) :
    (l.enum.reverse).countP (fun p => p.2.isDense) = l.countP ANLayer.isDense := by
  rw [List.countP_reverse, countP_enum_snd]

theorem countP_isDense_congr : ∀ {l1 l2 : List ANLayer},
    l1.map ANLayer.isDense = l2.map ANLayer.isDense →
    l1.countP ANLayer.isDense = l2.countP ANLayer.isDense := by
  intro l1
  induction l1 with
  | nil =>
      intro l2 h
      cases l2 with
      | nil => rfl
      | cons b t2 => simp at h
  | cons a t ih =>
      intro l2 h
      cases l2 with
      | nil => simp at h
      | cons b t2 =>
          simp only [List.map_cons, List.cons.injEq] at h
          rw [List.countP_cons, List.countP_cons, h.1, ih h.2]

theorem fwdLoop_tags (ops : JOps) (training : Bool) (lastIdx : ℕ) :
    ∀ (l : List (ℕ × ANLayer)) (cur : List JsNum) (rng : Rng),
      ((fwdLoop ops training lastIdx l cur rng).2.1).map ANLayer.isDense =
        l.map (fun p => p.2.isDense) := by
  intro l
  induction l with
  | nil => intro cur rng; rfl
  | cons hd rest ih =>
      intro cur rng
      obtain ⟨i, layer⟩ := hd
      cases layer with
      | lstm L => simp only [fwdLoop, List.map_cons, ANLayer.isDense, ih]
      | dense D => simp only [fwdLoop, List.map_cons, ANLayer.isDense, ih]

theorem enum_map_snd_isDense (l : List ANLayer) :
    l.enum.map (fun p => p.2.isDense) = l.map ANLayer.isDense := by
  have h := congrArg (List.map ANLayer.isDense) (List.enum_map_snd l)
  rw [List.map_map] at h
  exact h

theorem anForward_layers_tags (ops : JOps) (net : AdvancedNetwork) (input : List JsNum)
    (training : Bool) (temperature : ℚ) (rng : Rng) :
    ((anForward ops net input training temperature rng).2.1).layers.map ANLayer.isDense =
      net.layers.map ANLayer.isDense := by
  simp only [anForward]
  rw [fwdLoop_tags]
  split_ifs with hc
  · rw [enum_map_snd_isDense, List.map_map]
    exact List.map_congr_left (fun a _ => by cases a <;> rfl)
  · rw [enum_map_snd_isDense]

theorem anForward_adamT (ops : JOps) (net : AdvancedNetwork) (input : List JsNum)
    (training : Bool) (temperature : ℚ) (rng : Rng) :
    ((anForward ops net input training temperature rng).2.1).adamT = net.adamT := rfl

theorem anTrain_adamT_eq_backLoop (ops : JOps) (net : AdvancedNetwork)
    (input target : List JsNum) (rng : Rng) :
    ((anTrain ops net input target rng).2.1).adamT =
      (backLoop ops net.learningRate net.beta1 net.beta2 net.epsilon
        (((anForward ops net input true 1 rng).2.1).layers.length - 1)
        (((anForward ops net input true 1 rng).2.1).layers.enum.reverse)
        (outputGradients (anForward ops net input true 1 rng).1 target) []
        ((anForward ops net input true 1 rng).2.1).adamM
        ((anForward ops net input true 1 rng).2.1).adamV
        ((anForward ops net input true 1 rng).2.1).adamT).2.2.2.2 := by
  simp only [anTrain]
  split <;> rfl

/-- Claim C9: every `AdvancedNetwork.train` call increments the shared
Adam step counter `t` once inside each dense layer's backward pass — by the
number of dense layers per call, not once per training example — and
`adamUpdate` (which computes the bias corrections `1 - β^t` from the
incremented counter) advances it by exactly one. -/
theorem claim_C9 (ops : JOps) (net : AdvancedNetwork) (input target : List JsNum)
    (rng : Rng) :
    ((anTrain ops net input target rng).2.1).adamT =
      net.adamT + net.layers.countP ANLayer.isDense ∧
    (∀ (lr beta1 beta2 epsilon : ℚ) (layer : DenseLayer) (gW : List (List JsNum))
        (gB : List JsNum) (m v : AdamMV) (t0 : ℕ),
      (adamUpdate ops lr beta1 beta2 epsilon layer gW gB m v t0).2.2.2 = t0 + 1) := by
  constructor
  · rw [anTrain_adamT_eq_backLoop, backLoop_t, countP_enum_reverse, anForward_adamT]
    congr 1
    exact countP_isDense_congr (anForward_layers_tags ops net input true 1 rng)
  · intro lr beta1 beta2 epsilon layer gW gB m v t0
    rfl

end Neru
